import Mathlib

/-!
Verification of `pkg/workers/sharings/share_data.go` (cozy-stack sharing
data worker).

The Go source is shallowly embedded: pure helpers become Lean functions,
the per-recipient dispatch loops become explicit state-passing recursions,
HTTP requests become values of an inductive `SentReq` collected in order of
issuance, and the remote side is abstracted by an environment assigning to
every recipient the outcome of its fetches and sends.  Go runtime panics
(failing type assertions) are modelled with `Option`/`Except`.
-/

namespace ShareData

/-- JSON values as decoded into a `couchdb.JSONDoc` body (`doc.M`).  String
values are modelled exactly, because the code type-asserts on them
(`doc.M["_rev"].(string)`); every non-string JSON value is abstracted as an
opaque code, distinct codes standing for distinct values, since the code only
ever compares non-string values for deep equality. -/
inductive JVal where
  | str : String → JVal
  | other : Nat → JVal
deriving DecidableEq, Repr

/-- A JSON document body (`doc.M` in Go, a `map[string]interface{}`): a
string-keyed map, modelled as an association list whose keys are unique. -/
abbrev JMap := List (String × JVal)

/-- Go map read `m[k]` (with presence information). -/
def jGet (m : JMap) (k : String) : Option JVal :=
  m.lookup k

/-- Go `delete(m, k)`. -/
def jErase (m : JMap) (k : String) : JMap :=
  m.filter (fun p => p.1 != k)

/-- Go map write `m[k] = v`. -/
def jSet (m : JMap) (k : String) (v : JVal) : JMap :=
  (k, v) :: jErase m k

/-- `reflect.DeepEqual` on two Go maps: same key set, equal values. -/
def jEqB (a b : JMap) : Bool :=
  a.all (fun p => jGet b p.1 == some p.2) && b.all (fun p => jGet a p.1 == some p.2)

/-- Go type assertion `m[k].(string)`: `none` models the runtime panic raised
when the key is missing or its value is not a string. -/
def assertString (m : JMap) (k : String) : Option String :=
  match jGet m k with
  | some (JVal.str s) => some s
  | _ => none

/-- The document body with the volatile fields removed, as computed by
`docHasChanges` through its `delete` calls on `_id` and `_rev`. -/
def stripVolatile (m : JMap) : JMap :=
  jErase (jErase m "_id") "_rev"

/-- `docHasChanges` (share_data.go:876-894).  The Go code asserts
`newDoc.M["_id"].(string)`, `newDoc.M["_rev"].(string)` and
`doc.M["_rev"].(string)`, deletes `_id`/`_rev` from both bodies, compares with
`reflect.DeepEqual`, then restores the saved fields (`newDoc` fully, `doc`
only its `_rev`).  The net comparison is pure, so it is modelled as a pure
function; `none` models the panic of a failing type assertion.  (The remote
copy's `_id` is left deleted by the Go code, but no later read observes it.) -/
def docHasChanges (newDoc doc : JMap) : Option Bool := do
  let _ ← assertString newDoc "_id"
  let _ ← assertString newDoc "_rev"
  let _ ← assertString doc "_rev"
  some (!(jEqB (stripVolatile newDoc) (stripVolatile doc)))

/-- `couchdb.DocReference`: a `{type, id}` pair. -/
structure DocReference where
  type : String
  id : String
deriving DecidableEq, Repr

/-! Constants from the `consts` and `permissions` packages (not under `src/`).
Modelled from the spec: the spec names a "referenced-by" selector, values of
the form `doctype/id`, a non-shareable root container and a well-known
"shared-with-me" container; the literal strings are opaque to every claim. -/

def selectorReferencedBy : String := "referenced_by"

def refSep : String := "/"

def rootDirID : String := "io.cozy.files.root-dir"

def sharedWithMeDirID : String := "io.cozy.files.shared-with-me-dir"

def fileType : String := "file"

def dirType : String := "directory"

/-- `SendOptions` (immutable part).  `DocRev`, the lazily filled
`sharedRefs` memo and the `fileOpts` handle are mutable in Go and are
threaded explicitly through the dispatch models below. -/
structure SendOptions where
  docID : String
  docType : String
  selector : String
  values : List String
deriving DecidableEq, Repr

/-- `strings.Split` for a one-character separator, on the character list of
the string (structurally recursive so that concrete runs reduce). -/
def splitParts (sep : Char) : List Char → List (List Char)
  | [] => [[]]
  | c :: rest =>
    match splitParts sep rest with
    | [] => [[]]
    | p :: ps => if c = sep then [] :: p :: ps else (c :: p) :: ps

/-- One `Values` entry `"doctype/id"` parsed by `getSharedReferences` with
`strings.Split(ref, permissions.RefSep)`; entries not splitting into exactly
two parts are skipped. -/
def parseSharedRef (s : String) : Option DocReference :=
  match (splitParts '/' s.toList).map (fun cs => String.mk cs) with
  | [t, i] => some { type := t, id := i }
  | _ => none

/-- `getSharedReferences` (share_data.go:143-160).  In Go the result is
memoised in the unexported `opts.sharedRefs` field, which is `nil` on entry to
every public operation; the memoisation does not change the value, so the
function is modelled as pure.  For a selector other than `referenced_by` the
Go function returns the untouched `nil` slice. -/
def getSharedReferences (opts : SendOptions) : List DocReference :=
  if opts.selector = selectorReferencedBy then
    opts.values.filterMap parseSharedRef
  else []

/-- Inner loop of `extractRelevantReferences`: scan `sharedRefs` for an entry
whose `ID` equals `ref.ID` (the `Type` field is not consulted), with early
`break` on the first match. -/
def refMatchesShared (ref : DocReference) : List DocReference → Bool
  | [] => false
  | sharedRef :: rest =>
    if ref.id = sharedRef.id then true else refMatchesShared ref rest

/-- Outer loop of `extractRelevantReferences`: keep, in order, the elements of
`refs` matched by some shared reference. -/
def extractRelevantRefsAux (sharedRefs : List DocReference) :
    List DocReference → List DocReference
  | [] => []
  | ref :: rest =>
    if refMatchesShared ref sharedRefs then
      ref :: extractRelevantRefsAux sharedRefs rest
    else
      extractRelevantRefsAux sharedRefs rest

/-- `extractRelevantReferences` (share_data.go:167-187). -/
def extractRelevantReferences (opts : SendOptions) (refs : List DocReference) :
    List DocReference :=
  extractRelevantRefsAux (getSharedReferences opts) refs

/-- Inner loop of `findMissingRefs`: does `rref` contain a reference with the
same `ID` and `Type` as `lr`?  (Go keeps scanning after a match; the result is
the same as with early exit.) -/
def refInRemote (lr : DocReference) : List DocReference → Bool
  | [] => false
  | rr :: rest =>
    if rr.id = lr.id ∧ rr.type = lr.type then true else refInRemote lr rest

/-- `findMissingRefs` (share_data.go:912-926): the local references without an
`(ID, Type)` match on the remote side.  The Go function returns the `nil`
slice when nothing is appended and a non-empty slice otherwise, so `[]` is an
exact model of its `nil` result. -/
def findMissingRefs (lref rref : List DocReference) : List DocReference :=
  match lref with
  | [] => []
  | lr :: rest =>
    if refInRemote lr rref then findMissingRefs rest rref
    else lr :: findMissingRefs rest rref

/-- `findNewRefs` (share_data.go:901-910).  Returns `nil` (here `[]`) unless
the local relevant references strictly outnumber the remote ones.  The caller
tests `refs != nil`, which in Go is equivalent to the result being non-empty
because `findMissingRefs` never returns a non-nil empty slice. -/
def findNewRefs (opts : SendOptions) (localRefs remoteRefs : List DocReference) :
    List DocReference :=
  let refs := extractRelevantReferences opts localRefs
  let remoteRefs := extractRelevantReferences opts remoteRefs
  if refs.length > remoteRefs.length then findMissingRefs refs remoteRefs
  else []

/-- `isShared` (share_data.go:725-737). -/
def isShared (id : String) (acceptedIDs : List String) : Bool :=
  if id = rootDirID then false
  else acceptedIDs.contains id

/-- `getParentDirID` (share_data.go:709-723).  `Except` models the
`(string, error)` return. -/
def getParentDirID (opts : SendOptions) (dirID : String) : Except String String :=
  if opts.selector = "" then
    if opts.docID = rootDirID then Except.error "/ cannot be shared"
    else if isShared opts.docID opts.values then Except.ok sharedWithMeDirID
    else Except.ok dirID
  else Except.ok sharedWithMeDirID

/-- `vfs.FileDoc`, restricted to the fields the worker reads.  `md5` stands
for the base64 encoding of `MD5Sum`; the code only compares the encodings for
equality, and the encoding is injective, so a plain string field is faithful.
Timestamps are kept as their already-formatted RFC1123 strings. -/
structure FileDoc where
  docName : String
  tags : List String
  md5 : String
  executable : Bool
  createdAt : String
  updatedAt : String
  dirID : String
  rev : String
  referencedBy : List DocReference
deriving DecidableEq, Repr

/-- `vfs.DirDoc`, restricted to the fields the worker reads. -/
structure DirDoc where
  docName : String
  tags : List String
  createdAt : String
  updatedAt : String
  dirID : String
  rev : String
deriving DecidableEq, Repr

/-- `fileHasChanges` (share_data.go:862-870): name or tag-list difference.
`reflect.DeepEqual` on the two `[]string` tag slices is modelled as list
equality. -/
def fileHasChanges (newFileDoc remoteFileDoc : FileDoc) : Bool :=
  if newFileDoc.docName ≠ remoteFileDoc.docName then true
  else if newFileDoc.tags ≠ remoteFileDoc.tags then true
  else false

/-- `RecipientInfo`. -/
structure RecipientInfo where
  url : String
  scheme : String
  token : String
deriving DecidableEq, Repr

/-- Outcome of `getDirOrFileMetadataAtRecipient` for one recipient:
the remote file metadata, the distinguished 404 (`ErrRemoteDocDoesNotExist`),
or any other fetch failure.  (A remote answering with a *directory* for a
file id makes the Go caller dereference a nil `remoteFileDoc`; that
pathological cross-kind answer is outside this model.) -/
inductive FileFetch where
  | found : FileDoc → FileFetch
  | notFound : FileFetch
  | fetchError : FileFetch
deriving DecidableEq, Repr

/-- Outcome of `getDocAtRecipient` for one recipient.  The Go helper returns
a plain error both for 404 and for any other failure — unlike the file path
it never classifies "not found" — but the model keeps the two apart so that
theorems can talk about the absent case. -/
inductive DocFetch where
  | found : JMap → DocFetch
  | notFound : DocFetch
  | fetchError : DocFetch
deriving Repr

/-- One HTTP request issued to one recipient (GET fetches are part of the
environment, not recorded; every `SentReq` is a mutating request). -/
inductive SentReq where
  | filePost : String → List (String × String) → SentReq
  | filePut : String → List (String × String) → SentReq
  | metaPatch : String → String → String → String → List String → SentReq
  | refAdd : String → List DocReference → SentReq
  | refRemove : String → List DocReference → SentReq
  | docPost : String → JMap → SentReq
  | docPut : String → JMap → SentReq
  | docDelete : String → String → SentReq
  | fileDelete : String → String → SentReq
  | dirPost : String → String → String → SentReq
deriving DecidableEq, Repr

/-- The recipient (by URL) a request was issued to. -/
def SentReq.recUrl : SentReq → String
  | SentReq.filePost r _ => r
  | SentReq.filePut r _ => r
  | SentReq.metaPatch r _ _ _ _ => r
  | SentReq.refAdd r _ => r
  | SentReq.refRemove r _ => r
  | SentReq.docPost r _ => r
  | SentReq.docPut r _ => r
  | SentReq.docDelete r _ => r
  | SentReq.fileDelete r _ => r
  | SentReq.dirPost r _ _ => r

/-- The external world of one dispatch: per-recipient fetch outcomes, the
local VFS `OpenFile` outcome, and per-recipient transport success for
mutating requests (a failed send is still an issued request). -/
structure Env where
  fetchFile : RecipientInfo → FileFetch
  fetchDoc : RecipientInfo → DocFetch
  openOk : Bool
  sendOk : RecipientInfo → Bool

/-- The mutable `opts.fileOpts` handle: the `set` flag, the shared mutable
`url.Values` query map, and instrumentation counting the `fs.OpenFile` /
`content.Close()` calls that actually happened. -/
structure FileState where
  fileOptsSet : Bool := false
  queries : List (String × String) := []
  opened : Nat := 0
  closed : Nat := 0
deriving DecidableEq, Repr

/-- Stand-in for `json.Marshal` of a reference list (the code never inspects
this string, it only forwards it as the `referenced_by` query value). -/
def refsJSONString (refs : List DocReference) : String :=
  String.intercalate "," (refs.map (fun r => r.type ++ refSep ++ r.id))

/-- The query map built by `fillDetailsAndOpenFile` (share_data.go:113-120). -/
def baseFileQueries (opts : SendOptions) (fileDoc : FileDoc) : List (String × String) :=
  let refs :=
    if opts.selector = selectorReferencedBy then
      refsJSONString (getSharedReferences opts)
    else ""
  [("type", fileType),
   ("name", fileDoc.docName),
   ("executable", if fileDoc.executable then "true" else "false"),
   ("created_at", fileDoc.createdAt),
   ("updated_at", fileDoc.updatedAt),
   ("referenced_by", refs)]

/-- `fillDetailsAndOpenFile` (share_data.go:91-131): immediate return once
`set`; otherwise build the queries, open the content stream, and only on a
successful open publish the handle with `set = true`. -/
def fillDetailsAndOpenFile (env : Env) (opts : SendOptions) (fileDoc : FileDoc)
    (fs : FileState) : Except String FileState :=
  if fs.fileOptsSet then Except.ok fs
  else if env.openOk then
    Except.ok { fileOptsSet := true, queries := baseFileQueries opts fileDoc,
                opened := fs.opened + 1, closed := fs.closed }
  else Except.error "open failed"

/-- `closeFile` (share_data.go:133-139): closes the content stream only when
the handle was set; the `set` flag is *not* cleared. -/
def closeFile (fs : FileState) : FileState :=
  if fs.fileOptsSet then { fs with closed := fs.closed + 1 } else fs

/-- `sendFileToRecipient` (share_data.go:597-624).  `docRev` is the current
`opts.DocRev`; when non-empty it is *appended* to the shared `queries` map
(`url.Values.Add`), so earlier additions persist for later recipients.
`put` selects PUT vs POST. -/
def sendFileToRecipient (docRev : String) (rec : RecipientInfo) (put : Bool)
    (fs : FileState) : Except String (FileState × SentReq) :=
  if fs.fileOptsSet = false then Except.error "fileOpts were not set"
  else
    let fs :=
      if docRev ≠ "" then { fs with queries := fs.queries ++ [("rev", docRev)] }
      else fs
    Except.ok (fs, if put then SentReq.filePut rec.url fs.queries
                   else SentReq.filePost rec.url fs.queries)

/-- Result of one `SendFile` call. -/
structure SendFileRun where
  fs : FileState
  reqs : List SentReq
  errs : List String
  attempted : List String
  failedEarly : Bool
deriving Repr

/-- Intermediate result of the `SendFile` recipient loop. -/
structure SFOut where
  fs : FileState
  reqs : List SentReq
  errs : List String
  attempted : List String
deriving DecidableEq, Repr

/-- The recipient loop of `SendFile` (share_data.go:356-362): POST to every
recipient, log failures, never stop. -/
def sendFileLoop (env : Env) (docRev : String) :
    List RecipientInfo → FileState → SFOut
  | [], fs => { fs := fs, reqs := [], errs := [], attempted := [] }
  | rec :: rest, fs =>
    match sendFileToRecipient docRev rec false fs with
    | Except.error e =>
      let r := sendFileLoop env docRev rest fs
      { r with errs := e :: r.errs, attempted := rec.url :: r.attempted }
    | Except.ok (fs1, req) =>
      let errHere := if env.sendOk rec then [] else ["send failed: " ++ rec.url]
      let r := sendFileLoop env docRev rest fs1
      { r with reqs := req :: r.reqs, errs := errHere ++ r.errs,
               attempted := rec.url :: r.attempted }

/-- `SendFile` (share_data.go:346-365): open the content (aborting the whole
call on failure, before the deferred close is registered), add the
`dir_id = SharedWithMeDirID` query, POST to every recipient, and close the
stream through the deferred `closeFile`. -/
def sendFile (env : Env) (opts : SendOptions) (fileDoc : FileDoc)
    (recipients : List RecipientInfo) (docRev : String) (fs0 : FileState) :
    SendFileRun :=
  match fillDetailsAndOpenFile env opts fileDoc fs0 with
  | Except.error e =>
    { fs := fs0, reqs := [], errs := [e], attempted := [], failedEarly := true }
  | Except.ok fs1 =>
    let fs2 := { fs1 with queries := fs1.queries ++ [("dir_id", sharedWithMeDirID)] }
    let r := sendFileLoop env docRev recipients fs2
    { fs := closeFile r.fs, reqs := r.reqs, errs := r.errs, attempted := r.attempted,
      failedEarly := false }

/-- State threaded through the `UpdateOrPatchFile` recipient loop:
`opts.DocRev`, the shared file handle, the requests issued so far, the
logged errors, and the recipients whose iteration was entered. -/
structure UPFState where
  docRev : String
  fs : FileState
  reqs : List SentReq
  errs : List String
  attempted : List String
deriving DecidableEq, Repr

def initUPFState : UPFState :=
  { docRev := "", fs := {}, reqs := [], errs := [], attempted := [] }

/-- One iteration of the `UpdateOrPatchFile` loop (share_data.go:428-494). -/
def upfStep (env : Env) (opts : SendOptions) (fileDoc : FileDoc)
    (allRecipients : List RecipientInfo) (rec : RecipientInfo)
    (st : UPFState) : UPFState :=
  let st := { st with attempted := st.attempted ++ [rec.url] }
  match env.fetchFile rec with
  | FileFetch.fetchError =>
    { st with errs := st.errs ++ ["could not get data at " ++ rec.url] }
  | FileFetch.notFound =>
    -- delegation to the create path: SendFile POSTs to *all* recipients
    let run := sendFile env opts fileDoc allRecipients st.docRev st.fs
    { st with fs := run.fs, reqs := st.reqs ++ run.reqs, errs := st.errs ++ run.errs }
  | FileFetch.found remote =>
    let docRev := remote.rev
    if fileDoc.md5 = remote.md5 then
      if fileHasChanges fileDoc remote then
        -- generateDirOrFilePatch always succeeds; sendPatchToRecipient first
        -- resolves the parent directory and can fail there
        match getParentDirID opts fileDoc.dirID with
        | Except.error e => { st with docRev := docRev, errs := st.errs ++ [e] }
        | Except.ok parentID =>
          let req := SentReq.metaPatch rec.url docRev parentID fileDoc.docName fileDoc.tags
          { st with docRev := docRev, reqs := st.reqs ++ [req],
                    errs := st.errs ++
                      (if env.sendOk rec then [] else ["send failed: " ++ rec.url]) }
      else
        if opts.selector = selectorReferencedBy then
          let refs := findNewRefs opts fileDoc.referencedBy remote.referencedBy
          if refs ≠ [] then -- Go: refs != nil
            { st with docRev := docRev,
                      reqs := st.reqs ++ [SentReq.refAdd rec.url refs],
                      errs := st.errs ++
                        (if env.sendOk rec then [] else ["send failed: " ++ rec.url]) }
          else { st with docRev := docRev }
        else { st with docRev := docRev }
    else
      match fillDetailsAndOpenFile env opts fileDoc st.fs with
      | Except.error e => { st with docRev := docRev, errs := st.errs ++ [e] }
      | Except.ok fs1 =>
        match sendFileToRecipient docRev rec true fs1 with
        | Except.error e =>
          { st with docRev := docRev, fs := fs1, errs := st.errs ++ [e] }
        | Except.ok (fs2, req) =>
          { st with docRev := docRev, fs := fs2, reqs := st.reqs ++ [req],
                    errs := st.errs ++
                      (if env.sendOk rec then [] else ["send failed: " ++ rec.url]) }

def updateOrPatchFileLoop (env : Env) (opts : SendOptions) (fileDoc : FileDoc)
    (allRecipients : List RecipientInfo) :
    List RecipientInfo → UPFState → UPFState
  | [], st => st
  | rec :: rest, st =>
    updateOrPatchFileLoop env opts fileDoc allRecipients rest
      (upfStep env opts fileDoc allRecipients rec st)

/-- `UpdateOrPatchFile` (share_data.go:423-497): the recipient loop followed
by the deferred `closeFile`. -/
def updateOrPatchFile (env : Env) (opts : SendOptions) (fileDoc : FileDoc)
    (recipients : List RecipientInfo) : UPFState :=
  let st := updateOrPatchFileLoop env opts fileDoc recipients recipients initUPFState
  { st with fs := closeFile st.fs }

/-- Result of a generic-document (or directory) operation. -/
structure DocRun where
  reqs : List SentReq
  errs : List String
  attempted : List String
deriving DecidableEq, Repr

/-- `SendDoc` (share_data.go:260-279): strip `_id`/`_rev` from the local doc,
POST it to every recipient, log failures. -/
def sendDocLoop (env : Env) (body : JMap) : List RecipientInfo → DocRun
  | [] => { reqs := [], errs := [], attempted := [] }
  | rec :: rest =>
    let r := sendDocLoop env body rest
    { reqs := SentReq.docPost rec.url body :: r.reqs,
      errs := (if env.sendOk rec then [] else ["send failed: " ++ rec.url]) ++ r.errs,
      attempted := rec.url :: r.attempted }

def sendDoc (env : Env) (localDoc : JMap) (recipients : List RecipientInfo) : DocRun :=
  sendDocLoop env (stripVolatile localDoc) recipients

/-- `doc.SetRev(rev)`. -/
def jSetRev (m : JMap) (rev : String) : JMap :=
  jSet m "_rev" (JVal.str rev)

/-- `UpdateDoc` (share_data.go:282-311): per recipient fetch the remote copy
(skipping with a logged error on any failure, 404 included), skip when
`docHasChanges` says the bodies agree, otherwise inject the remote `_rev`
into the local doc and PUT it.  `Except.error` models the runtime panic of
the unchecked type assertions, which aborts the whole loop. -/
def updateDocLoop (env : Env) : List RecipientInfo → JMap → Except String DocRun
  | [], _ => Except.ok { reqs := [], errs := [], attempted := [] }
  | rec :: rest, doc =>
    match env.fetchDoc rec with
    | DocFetch.found remoteDoc =>
      match docHasChanges doc remoteDoc with
      | none => Except.error "runtime panic: interface conversion"
      | some false =>
        match updateDocLoop env rest doc with
        | Except.error e => Except.error e
        | Except.ok r => Except.ok { r with attempted := rec.url :: r.attempted }
      | some true =>
        match assertString remoteDoc "_rev" with
        | none => Except.error "runtime panic: interface conversion"
        | some rev =>
          let doc1 := jSetRev doc rev
          match updateDocLoop env rest doc1 with
          | Except.error e => Except.error e
          | Except.ok r =>
            Except.ok
              { reqs := SentReq.docPut rec.url doc1 :: r.reqs,
                errs := (if env.sendOk rec then [] else ["send failed: " ++ rec.url])
                          ++ r.errs,
                attempted := rec.url :: r.attempted }
    | _ =>
      match updateDocLoop env rest doc with
      | Except.error e => Except.error e
      | Except.ok r =>
        Except.ok { r with errs := ("get remote doc failed: " ++ rec.url) :: r.errs,
                           attempted := rec.url :: r.attempted }

def updateDoc (env : Env) (localDoc : JMap) (recipients : List RecipientInfo) :
    Except String DocRun :=
  updateDocLoop env recipients localDoc

/-- `DeleteDoc` (share_data.go:227-257): per recipient fetch the remote doc
(recording the error and skipping on failure), read its `_rev` through the
unchecked assertion (`Except.error` models the panic), DELETE with that rev,
and append any send failure to the aggregate. -/
def deleteDocLoop (env : Env) : List RecipientInfo → Except String DocRun
  | [] => Except.ok { reqs := [], errs := [], attempted := [] }
  | rec :: rest =>
    match env.fetchDoc rec with
    | DocFetch.found doc =>
      match assertString doc "_rev" with
      | none => Except.error "runtime panic: interface conversion"
      | some rev =>
        match deleteDocLoop env rest with
        | Except.error e => Except.error e
        | Except.ok r =>
          Except.ok
            { reqs := SentReq.docDelete rec.url rev :: r.reqs,
              errs := (if env.sendOk rec then [] else ["share data failed: " ++ rec.url])
                        ++ r.errs,
              attempted := rec.url :: r.attempted }
    | _ =>
      match deleteDocLoop env rest with
      | Except.error e => Except.error e
      | Except.ok r =>
        Except.ok { r with errs := ("get remote doc failed: " ++ rec.url) :: r.errs,
                           attempted := rec.url :: r.attempted }

/-- `DeleteDoc` returns the accumulated multierror (`nil` when empty). -/
def deleteDoc (env : Env) (recipients : List RecipientInfo) :
    Except String (DocRun × Option (List String)) :=
  match deleteDocLoop env recipients with
  | Except.error e => Except.error e
  | Except.ok r => Except.ok (r, if r.errs = [] then none else some r.errs)

/-- `getDirOrFileRevAtRecipient` (share_data.go:811-824). -/
def getDirOrFileRevAtRecipient (env : Env) (rec : RecipientInfo) :
    Except String String :=
  match env.fetchFile rec with
  | FileFetch.found d => Except.ok d.rev
  | FileFetch.notFound => Except.error "Remote doc does not exist"
  | FileFetch.fetchError => Except.error "fetch failed"

/-- Result of `DeleteDirOrFile`: issued requests, the errors appended to
`errFinal`, the attempted recipients, and the function's actual return
value. -/
structure DeleteRun where
  reqs : List SentReq
  errs : List String
  attempted : List String
  returned : Option (List String)
deriving DecidableEq, Repr

def deleteDirOrFileLoop (env : Env) :
    List RecipientInfo → List SentReq × List String × List String
  | [] => ([], [], [])
  | rec :: rest =>
    let (reqs, errs, att) := deleteDirOrFileLoop env rest
    match getDirOrFileRevAtRecipient env rec with
    | Except.error e =>
      (reqs, ("Error while trying to get a revision at " ++ rec.url ++ ": " ++ e) :: errs,
       rec.url :: att)
    | Except.ok rev =>
      (SentReq.fileDelete rec.url rev :: reqs,
       (if env.sendOk rec then [] else ["Error while sending request to " ++ rec.url]) ++ errs,
       rec.url :: att)

/-- `DeleteDirOrFile` (share_data.go:551-585).  Every error is appended to
`errFinal`, but share_data.go:584 ends the function with `return nil`, so the
returned value is always `none`. -/
def deleteDirOrFile (env : Env) (recipients : List RecipientInfo) : DeleteRun :=
  let (reqs, errs, att) := deleteDirOrFileLoop env recipients
  { reqs := reqs, errs := errs, attempted := att, returned := none }

/-- Result of `PatchDir`: `aborted = some e` when the loop returned early
with `e` (discarding the aggregate built so far). -/
structure PatchRun where
  reqs : List SentReq
  errs : List String
  attempted : List String
  aborted : Option String
deriving DecidableEq, Repr

/-- `PatchDir` (share_data.go:501-524): per recipient fetch the remote rev —
**returning immediately on failure** (share_data.go:512) — then send the
patch, aggregating send failures. -/
def patchDirLoop (env : Env) (opts : SendOptions) (dirDoc : DirDoc) :
    List RecipientInfo → PatchRun
  | [] => { reqs := [], errs := [], attempted := [], aborted := none }
  | rec :: rest =>
    match getDirOrFileRevAtRecipient env rec with
    | Except.error e =>
      { reqs := [], errs := [], attempted := [rec.url], aborted := some e }
    | Except.ok rev =>
      let (reqsHere, errsHere) :=
        match getParentDirID opts dirDoc.dirID with
        | Except.error e => ([], ["Error while trying to send a patch: " ++ e])
        | Except.ok parentID =>
          ([SentReq.metaPatch rec.url rev parentID dirDoc.docName dirDoc.tags],
           if env.sendOk rec then [] else ["Error while trying to send a patch: " ++ rec.url])
      let r := patchDirLoop env opts dirDoc rest
      { reqs := reqsHere ++ r.reqs, errs := errsHere ++ r.errs,
        attempted := rec.url :: r.attempted, aborted := r.aborted }

def patchDir (env : Env) (opts : SendOptions) (dirDoc : DirDoc)
    (recipients : List RecipientInfo) : PatchRun :=
  patchDirLoop env opts dirDoc recipients

/-- `SendDir` (share_data.go:368-405): resolve the parent once (aborting the
whole call on error), then POST the directory to every recipient, logging
failures. -/
def sendDirLoop (env : Env) (parentID : String) (dirDoc : DirDoc) :
    List RecipientInfo → DocRun
  | [] => { reqs := [], errs := [], attempted := [] }
  | rec :: rest =>
    let r := sendDirLoop env parentID dirDoc rest
    { reqs := SentReq.dirPost rec.url parentID dirDoc.docName :: r.reqs,
      errs := (if env.sendOk rec then [] else ["send failed: " ++ rec.url]) ++ r.errs,
      attempted := rec.url :: r.attempted }

def sendDir (env : Env) (opts : SendOptions) (dirDoc : DirDoc)
    (recipients : List RecipientInfo) : Except String DocRun :=
  match getParentDirID opts dirDoc.dirID with
  | Except.error e => Except.error e
  | Except.ok parentID => Except.ok (sendDirLoop env parentID dirDoc recipients)

/-- `RemoveDirOrFileFromSharing` (share_data.go:534-547): DELETE the shared
references at every recipient, logging failures. -/
def removeDirOrFileFromSharing (env : Env) (opts : SendOptions) :
    List RecipientInfo → DocRun
  | [] => { reqs := [], errs := [], attempted := [] }
  | rec :: rest =>
    let r := removeDirOrFileFromSharing env opts rest
    { reqs := SentReq.refRemove rec.url (getSharedReferences opts) :: r.reqs,
      errs := (if env.sendOk rec then [] else ["send failed: " ++ rec.url]) ++ r.errs,
      attempted := rec.url :: r.attempted }

/-- The mutating requests a dispatch issued to the recipient with URL `u`. -/
def recReqs (u : String) (reqs : List SentReq) : List SentReq :=
  reqs.filter (fun q => q.recUrl == u)

/-! ### Concrete inputs used by witnesses and counterexamples -/

def recA : RecipientInfo := { url := "a", scheme := "https", token := "ta" }

def recB : RecipientInfo := { url := "b", scheme := "https", token := "tb" }

def refAlbumA : DocReference := { type := "album", id := "A" }

def refAlbumB : DocReference := { type := "album", id := "B" }

/-- A sharing scoped by a `referenced_by` selector over two album references. -/
def optsRefSel : SendOptions :=
  { docID := "file-1", docType := "io.cozy.files", selector := "referenced_by",
    values := ["album/A", "album/B"] }

/-- A plain (listing) sharing whose accepted ids are `["x"]`. -/
def optsC8 : SendOptions :=
  { docID := "x", docType := "io.cozy.files", selector := "", values := ["x"] }

/-- A remote generic document whose `_rev` is present but not a string. -/
def badRemoteDoc : JMap := [("_rev", JVal.other 0), ("content", JVal.str "x")]

/-- A local file document referencing album `A`. -/
def fdBase : FileDoc :=
  { docName := "photo", tags := ["a"], md5 := "h1", executable := false,
    createdAt := "Mon, 02 Jan 2006 15:04:05 MST",
    updatedAt := "Mon, 02 Jan 2006 15:04:05 MST",
    dirID := "dir-1", rev := "1-loc", referencedBy := [refAlbumA] }

/-- A remote copy of `fdBase` whose content hash differs. -/
def remotePut : FileDoc := { fdBase with md5 := "h2", rev := "3-rec" }

/-- A remote copy of `fdBase` with identical hash, name, tags and
references. -/
def remoteSame : FileDoc := { fdBase with rev := "3-rec" }

def envC1w : Env :=
  { fetchFile := fun _ => FileFetch.found remotePut,
    fetchDoc := fun _ => DocFetch.fetchError,
    openOk := true,
    sendOk := fun _ => true }

/-- Recipient `a` lacks the file (404); recipient `b` has an identical copy. -/
def envC1x : Env :=
  { fetchFile := fun r =>
      if r.url = "a" then FileFetch.notFound else FileFetch.found remoteSame,
    fetchDoc := fun _ => DocFetch.fetchError,
    openOk := true,
    sendOk := fun _ => true }

def docLocal : JMap :=
  [("_id", JVal.str "d1"), ("_rev", JVal.str "1-a"), ("content", JVal.str "x")]

def remoteDiffDoc : JMap :=
  [("_id", JVal.str "d1"), ("_rev", JVal.str "5-r"), ("content", JVal.str "y")]

def envC3 : Env :=
  { fetchFile := fun _ => FileFetch.notFound,
    fetchDoc := fun _ => DocFetch.found remoteDiffDoc,
    openOk := true,
    sendOk := fun _ => true }

/-- Every remote fetch answers "not found". -/
def envAbsent : Env :=
  { fetchFile := fun _ => FileFetch.notFound,
    fetchDoc := fun _ => DocFetch.notFound,
    openOk := true,
    sendOk := fun _ => true }

/-- A local directory document. -/
def dirBase : DirDoc :=
  { docName := "folder", tags := ["a"],
    createdAt := "Mon, 02 Jan 2006 15:04:05 MST",
    updatedAt := "Mon, 02 Jan 2006 15:04:05 MST",
    dirID := "dir-0", rev := "1-d" }

/-- Recipient `a`'s fetches fail; recipient `b` answers normally. -/
def envFetchFailA : Env :=
  { fetchFile := fun r =>
      if r.url = "a" then FileFetch.fetchError else FileFetch.found remoteSame,
    fetchDoc := fun r =>
      if r.url = "a" then DocFetch.fetchError else DocFetch.found remoteDiffDoc,
    openOk := true,
    sendOk := fun _ => true }

def envC10 : Env :=
  { fetchFile := fun _ => FileFetch.notFound,
    fetchDoc := fun _ => DocFetch.found badRemoteDoc,
    openOk := true,
    sendOk := fun _ => true }

/-! ### Lemmas about the reference reconciler -/

theorem refMatchesShared_eq (ref : DocReference) (shared : List DocReference) :
    refMatchesShared ref shared = (shared.map DocReference.id).contains ref.id := by
  induction shared with
  | nil => rfl
  | cons s rest ih =>
    by_cases h : ref.id = s.id <;>
      simp [refMatchesShared, h, ih, List.contains_cons]

theorem extractRelevantRefsAux_nil (refs : List DocReference) :
    extractRelevantRefsAux [] refs = [] := by
  induction refs with
  | nil => rfl
  | cons r rest ih => simp [extractRelevantRefsAux, refMatchesShared, ih]

theorem refInRemote_eq_any (lr : DocReference) (rref : List DocReference) :
    refInRemote lr rref = rref.any (fun rr => rr.id == lr.id && rr.type == lr.type) := by
  induction rref with
  | nil => rfl
  | cons rr rest ih =>
    by_cases h1 : rr.id = lr.id <;> by_cases h2 : rr.type = lr.type <;>
      simp [refInRemote, h1, h2, ih]

theorem findMissingRefs_eq_filter (lref rref : List DocReference) :
    findMissingRefs lref rref = lref.filter (fun lr => !(refInRemote lr rref)) := by
  induction lref with
  | nil => rfl
  | cons lr rest ih =>
    cases hc : refInRemote lr rref <;> simp [findMissingRefs, hc, ih, List.filter_cons]

theorem findNewRefs_nil_of_selector (opts : SendOptions)
    (h : opts.selector ≠ selectorReferencedBy) (l r : List DocReference) :
    findNewRefs opts l r = [] := by
  simp [findNewRefs, extractRelevantReferences, getSharedReferences, h,
        extractRelevantRefsAux_nil]

/-- C7: `extractRelevantReferences` keeps exactly the elements of its input
whose id occurs among the sharing scope's reference ids — the type field is
never consulted — and the output order is the input order (it is a filter of
the input). -/
theorem c7_extract_relevant_references (opts : SendOptions) (refs : List DocReference) :
    extractRelevantReferences opts refs =
      refs.filter (fun r => ((getSharedReferences opts).map DocReference.id).contains r.id) := by
  unfold extractRelevantReferences
  induction refs with
  | nil => rfl
  | cons r rest ih =>
    cases hc : ((getSharedReferences opts).map DocReference.id).contains r.id <;>
      simp [extractRelevantRefsAux, refMatchesShared_eq, hc, ih, List.filter_cons]

/-- C6: `findNewRefs` returns the empty "nothing to do" result whenever the
locally relevant references do not strictly outnumber the remotely relevant
ones; when they do, it returns exactly the locally relevant references with
no `(id, type)` match among the remotely relevant ones (empty — never an
ambiguous non-value — when nothing is missing). -/
theorem c6_missing_reference_delta (opts : SendOptions)
    (localRefs remoteRefs : List DocReference) :
    ((extractRelevantReferences opts localRefs).length ≤
        (extractRelevantReferences opts remoteRefs).length →
      findNewRefs opts localRefs remoteRefs = []) ∧
    ((extractRelevantReferences opts remoteRefs).length <
        (extractRelevantReferences opts localRefs).length →
      findNewRefs opts localRefs remoteRefs =
        (extractRelevantReferences opts localRefs).filter
          (fun lr => !((extractRelevantReferences opts remoteRefs).any
            (fun rr => rr.id == lr.id && rr.type == lr.type)))) := by
  constructor
  · intro h
    simp only [findNewRefs, gt_iff_lt]
    rw [if_neg (not_lt.mpr h)]
  · intro h
    simp only [findNewRefs, gt_iff_lt]
    rw [if_pos h, findMissingRefs_eq_filter]
    simp only [refInRemote_eq_any]

/-- C6 witness: with scope `{album/A, album/B}`, local relevant refs
`{A, B}` and remote relevant refs `{A}`, the delta is `{B}`. -/
theorem c6_witness :
    findNewRefs optsRefSel [refAlbumA, refAlbumB] [refAlbumA] = [refAlbumB] := by
  have h := (c6_missing_reference_delta optsRefSel [refAlbumA, refAlbumB] [refAlbumA]).2
    (by decide)
  rw [h]; decide

/-- C8: placement of a propagated object.  Without a selector the root may
not be shared, an explicitly accepted id is placed in the shared-with-me
container, and any other id keeps its local parent; with a selector the
shared-with-me container is returned unconditionally. -/
theorem c8_get_parent_dir_id (opts : SendOptions) (dirID : String) :
    (opts.selector = "" → opts.docID = rootDirID →
        getParentDirID opts dirID = Except.error "/ cannot be shared") ∧
    (opts.selector = "" → opts.docID ≠ rootDirID →
        opts.docID ∈ opts.values →
        getParentDirID opts dirID = Except.ok sharedWithMeDirID) ∧
    (opts.selector = "" → opts.docID ≠ rootDirID →
        opts.docID ∉ opts.values →
        getParentDirID opts dirID = Except.ok dirID) ∧
    (opts.selector ≠ "" → getParentDirID opts dirID = Except.ok sharedWithMeDirID) := by
  refine ⟨?_, ?_, ?_, ?_⟩
  · intro h1 h2; simp [getParentDirID, h1, h2]
  · intro h1 h2 h3; simp [getParentDirID, isShared, h1, h2, h3]
  · intro h1 h2 h3; simp [getParentDirID, isShared, h1, h2, h3]
  · intro h1; simp [getParentDirID, h1]

/-- C8 witness: in a plain listing sharing with accepted ids `["x"]`, object
`"x"` is placed in the shared-with-me container. -/
theorem c8_witness :
    getParentDirID optsC8 "p" = Except.ok sharedWithMeDirID :=
  (c8_get_parent_dir_id optsC8 "p").2.1 rfl (by decide) (by decide)

/-! ### Lemmas about the unchecked type assertions -/

theorem docHasChanges_eq_none (l r : JMap)
    (h : assertString r "_rev" = none ∨ assertString l "_id" = none ∨
         assertString l "_rev" = none) :
    docHasChanges l r = none := by
  rcases h with h | h | h
  · cases h1 : assertString l "_id" <;> cases h2 : assertString l "_rev" <;>
      simp [docHasChanges, h1, h2, h]
  · simp [docHasChanges, h]
  · cases h1 : assertString l "_id" <;> simp [docHasChanges, h1, h]

theorem docHasChanges_eq_some (l r : JMap)
    (h1 : (assertString l "_id").isSome) (h2 : (assertString l "_rev").isSome)
    (h3 : (assertString r "_rev").isSome) :
    docHasChanges l r = some (!(jEqB (stripVolatile l) (stripVolatile r))) := by
  obtain ⟨a, ha⟩ := Option.isSome_iff_exists.mp h1
  obtain ⟨b, hb⟩ := Option.isSome_iff_exists.mp h2
  obtain ⟨c, hc⟩ := Option.isSome_iff_exists.mp h3
  simp [docHasChanges, ha, hb, hc]

theorem deleteDocLoop_crash (env : Env) :
    ∀ (rs : List RecipientInfo) (rec : RecipientInfo) (d : JMap),
      rec ∈ rs → env.fetchDoc rec = DocFetch.found d →
      assertString d "_rev" = none →
      ∃ e, deleteDocLoop env rs = Except.error e := by
  intro rs
  induction rs with
  | nil => intro rec d h; cases h
  | cons r rest ih =>
    intro rec d hmem hf hbad
    rcases List.mem_cons.mp hmem with rfl | hmem2
    · refine ⟨"runtime panic: interface conversion", ?_⟩
      simp [deleteDocLoop, hf, hbad]
    · obtain ⟨e, he⟩ := ih rec d hmem2 hf hbad
      cases hfr : env.fetchDoc r with
      | found d0 =>
        cases has : assertString d0 "_rev" with
        | none =>
          exact ⟨"runtime panic: interface conversion",
            by simp [deleteDocLoop, hfr, has]⟩
        | some rev => exact ⟨e, by simp [deleteDocLoop, hfr, has, he]⟩
      | notFound => exact ⟨e, by simp [deleteDocLoop, hfr, he]⟩
      | fetchError => exact ⟨e, by simp [deleteDocLoop, hfr, he]⟩

theorem updateDocLoop_crash (env : Env) :
    ∀ (rs : List RecipientInfo) (doc : JMap) (rec : RecipientInfo) (d : JMap),
      rec ∈ rs → env.fetchDoc rec = DocFetch.found d →
      assertString d "_rev" = none →
      ∃ e, updateDocLoop env rs doc = Except.error e := by
  intro rs
  induction rs with
  | nil => intro doc rec d h; cases h
  | cons r rest ih =>
    intro doc rec d hmem hf hbad
    rcases List.mem_cons.mp hmem with rfl | hmem2
    · refine ⟨"runtime panic: interface conversion", ?_⟩
      simp [updateDocLoop, hf, docHasChanges_eq_none doc d (Or.inl hbad)]
    · cases hfr : env.fetchDoc r with
      | found d0 =>
        cases hch : docHasChanges doc d0 with
        | none =>
          exact ⟨"runtime panic: interface conversion",
            by simp [updateDocLoop, hfr, hch]⟩
        | some b =>
          cases b with
          | false =>
            obtain ⟨e, he⟩ := ih doc rec d hmem2 hf hbad
            exact ⟨e, by simp [updateDocLoop, hfr, hch, he]⟩
          | true =>
            cases has : assertString d0 "_rev" with
            | none =>
              exact ⟨"runtime panic: interface conversion",
                by simp [updateDocLoop, hfr, hch, has]⟩
            | some rev =>
              obtain ⟨e, he⟩ := ih (jSetRev doc rev) rec d hmem2 hf hbad
              exact ⟨e, by simp [updateDocLoop, hfr, hch, has, he]⟩
      | notFound =>
        obtain ⟨e, he⟩ := ih doc rec d hmem2 hf hbad
        exact ⟨e, by simp [updateDocLoop, hfr, he]⟩
      | fetchError =>
        obtain ⟨e, he⟩ := ih doc rec d hmem2 hf hbad
        exact ⟨e, by simp [updateDocLoop, hfr, he]⟩

/-- C10: the generic-document comparison and delete paths extract `_id` and
`_rev` by unchecked string type assertion: they succeed whenever the asserted
fields are string-valued, and for a fetched remote document lacking a string
`_rev` (or a local document lacking a string `_id` or `_rev`) the comparison
yields no value and the surrounding `DeleteDoc` / `UpdateDoc` loops abort
(runtime panic) instead of recording a per-recipient error. -/
theorem c10_unchecked_string_assertions :
    (∀ l r : JMap,
        (assertString r "_rev" = none ∨ assertString l "_id" = none ∨
          assertString l "_rev" = none) →
        docHasChanges l r = none) ∧
    (∀ l r : JMap,
        (assertString l "_id").isSome → (assertString l "_rev").isSome →
        (assertString r "_id").isSome → (assertString r "_rev").isSome →
        (docHasChanges l r).isSome) ∧
    (∀ (env : Env) (rs : List RecipientInfo) (rec : RecipientInfo) (d : JMap),
        rec ∈ rs → env.fetchDoc rec = DocFetch.found d →
        assertString d "_rev" = none →
        ∃ e, deleteDocLoop env rs = Except.error e) ∧
    (∀ (env : Env) (rs : List RecipientInfo) (doc : JMap) (rec : RecipientInfo)
        (d : JMap),
        rec ∈ rs → env.fetchDoc rec = DocFetch.found d →
        assertString d "_rev" = none →
        ∃ e, updateDocLoop env rs doc = Except.error e) := by
  refine ⟨docHasChanges_eq_none, ?_, deleteDocLoop_crash, updateDocLoop_crash⟩
  intro l r h1 h2 _ h4
  rw [docHasChanges_eq_some l r h1 h2 h4]
  rfl

/-- C10 witness: a remote document whose `_rev` is a number makes the
delete loop abort. -/
theorem c10_witness : ∃ e, deleteDocLoop envC10 [recA] = Except.error e :=
  c10_unchecked_string_assertions.2.2.1 envC10 [recA] recA badRemoteDoc
    (List.mem_singleton.mpr rfl) rfl rfl

/-! ### Lemmas about JSON map operations -/

theorem jGet_cons (a : String) (v : JVal) (m : JMap) (k : String) :
    jGet ((a, v) :: m) k = if k = a then some v else jGet m k := by
  by_cases h : k = a
  · simp [jGet, List.lookup, h]
  · simp [jGet, List.lookup, h, beq_eq_false_iff_ne.mpr h]

theorem jGet_jErase_ne (m : JMap) {k e : String} (h : k ≠ e) :
    jGet (jErase m e) k = jGet m k := by
  induction m with
  | nil => rfl
  | cons p rest ih =>
    obtain ⟨pk, pv⟩ := p
    by_cases hp : pk = e
    · subst hp
      simp only [jErase, List.filter_cons] at *
      simp [jGet_cons, h, ih]
    · by_cases hk : k = pk <;>
        simp only [jErase, List.filter_cons] at * <;>
        simp [jGet_cons, hp, hk, ih]

theorem jGet_jSetRev (m : JMap) (rev : String) :
    jGet (jSetRev m rev) "_rev" = some (JVal.str rev) := by
  simp [jSetRev, jSet, jGet_cons]

theorem assertString_jSetRev_rev (m : JMap) (rev : String) :
    assertString (jSetRev m rev) "_rev" = some rev := by
  simp [assertString, jGet_jSetRev]

theorem assertString_jSetRev_id (m : JMap) (rev : String) :
    assertString (jSetRev m rev) "_id" = assertString m "_id" := by
  have h : ("_id" : String) ≠ "_rev" := by decide
  simp [assertString, jSetRev, jSet, jGet_cons, h, jGet_jErase_ne m h]

theorem stripVolatile_eq_filter (m : JMap) :
    stripVolatile m = m.filter (fun p => p.1 != "_id" && p.1 != "_rev") := by
  unfold stripVolatile jErase
  induction m with
  | nil => rfl
  | cons p rest ih =>
    by_cases h1 : p.1 = "_id" <;> by_cases h2 : p.1 = "_rev" <;>
      simp [List.filter_cons, h1, h2, ih]

theorem stripVolatile_jErase_rev (m : JMap) :
    stripVolatile (jErase m "_rev") = stripVolatile m := by
  rw [stripVolatile_eq_filter, stripVolatile_eq_filter]
  unfold jErase
  induction m with
  | nil => rfl
  | cons p rest ih =>
    by_cases h2 : p.1 = "_rev" <;> simp [List.filter_cons, h2, ih]

theorem stripVolatile_jSetRev (m : JMap) (rev : String) :
    stripVolatile (jSetRev m rev) = stripVolatile m := by
  rw [stripVolatile_eq_filter]
  show List.filter (fun p => p.1 != "_id" && p.1 != "_rev")
      (("_rev", JVal.str rev) :: jErase m "_rev") = stripVolatile m
  rw [List.filter_cons, ← stripVolatile_eq_filter (jErase m "_rev"),
      stripVolatile_jErase_rev]
  simp

/-! ### Lemmas about the UpdateDoc loop -/

theorem recReqs_nil (u : String) : recReqs u [] = [] := rfl

theorem recReqs_cons_ne (u : String) (x : SentReq) (l : List SentReq)
    (h : x.recUrl ≠ u) : recReqs u (x :: l) = recReqs u l := by
  simp [recReqs, List.filter_cons, h]

theorem recReqs_cons_eq (u : String) (x : SentReq) (l : List SentReq)
    (h : x.recUrl = u) : recReqs u (x :: l) = x :: recReqs u l := by
  simp [recReqs, List.filter_cons, h]

theorem updateDocLoop_avoid (env : Env) (u : String) :
    ∀ (rs : List RecipientInfo) (doc : JMap),
      (assertString doc "_id").isSome → (assertString doc "_rev").isSome →
      (∀ r ∈ rs, ∀ d, env.fetchDoc r = DocFetch.found d →
        (assertString d "_rev").isSome) →
      (∀ r ∈ rs, r.url ≠ u) →
      ∃ res, updateDocLoop env rs doc = Except.ok res ∧ recReqs u res.reqs = [] := by
  intro rs
  induction rs with
  | nil =>
    intro doc _ _ _ _
    exact ⟨{ reqs := [], errs := [], attempted := [] }, rfl, rfl⟩
  | cons r rest ih =>
    intro doc hid hrev hwf havoid
    have hwf2 : ∀ x ∈ rest, ∀ d, env.fetchDoc x = DocFetch.found d →
        (assertString d "_rev").isSome :=
      fun x hx => hwf x (List.mem_cons_of_mem r hx)
    have havoid2 : ∀ x ∈ rest, x.url ≠ u :=
      fun x hx => havoid x (List.mem_cons_of_mem r hx)
    cases hfr : env.fetchDoc r with
    | found d0 =>
      have hd0 : (assertString d0 "_rev").isSome :=
        hwf r (List.mem_cons_self r rest) d0 hfr
      have hch := docHasChanges_eq_some doc d0 hid hrev hd0
      cases hb : jEqB (stripVolatile doc) (stripVolatile d0) with
      | true =>
        obtain ⟨res, hres, hfil⟩ := ih doc hid hrev hwf2 havoid2
        refine ⟨{ res with attempted := r.url :: res.attempted }, ?_, hfil⟩
        simp [updateDocLoop, hfr, hch, hb, hres]
      | false =>
        obtain ⟨rev0, hrev0⟩ := Option.isSome_iff_exists.mp hd0
        have hid1 : (assertString (jSetRev doc rev0) "_id").isSome := by
          rw [assertString_jSetRev_id]; exact hid
        have hrev1 : (assertString (jSetRev doc rev0) "_rev").isSome := by
          rw [assertString_jSetRev_rev]; rfl
        obtain ⟨res, hres, hfil⟩ := ih (jSetRev doc rev0) hid1 hrev1 hwf2 havoid2
        refine ⟨{ reqs := SentReq.docPut r.url (jSetRev doc rev0) :: res.reqs,
                  errs := (if env.sendOk r then [] else ["send failed: " ++ r.url])
                            ++ res.errs,
                  attempted := r.url :: res.attempted }, ?_, ?_⟩
        · simp [updateDocLoop, hfr, hch, hb, hrev0, hres]
        · rw [recReqs_cons_ne]
          · exact hfil
          · simpa [SentReq.recUrl] using havoid r (List.mem_cons_self r rest)
    | notFound =>
      obtain ⟨res, hres, hfil⟩ := ih doc hid hrev hwf2 havoid2
      refine ⟨{ res with
                  errs := ("get remote doc failed: " ++ r.url) :: res.errs,
                  attempted := r.url :: res.attempted }, ?_, hfil⟩
      simp [updateDocLoop, hfr, hres]
    | fetchError =>
      obtain ⟨res, hres, hfil⟩ := ih doc hid hrev hwf2 havoid2
      refine ⟨{ res with
                  errs := ("get remote doc failed: " ++ r.url) :: res.errs,
                  attempted := r.url :: res.attempted }, ?_, hfil⟩
      simp [updateDocLoop, hfr, hres]

theorem updateDocLoop_rec_spec (env : Env) (rec : RecipientInfo) (remoteDoc : JMap)
    (hf : env.fetchDoc rec = DocFetch.found remoteDoc) :
    ∀ (rs : List RecipientInfo) (doc : JMap),
      (assertString doc "_id").isSome → (assertString doc "_rev").isSome →
      (∀ r ∈ rs, ∀ d, env.fetchDoc r = DocFetch.found d →
        (assertString d "_rev").isSome) →
      (rs.map RecipientInfo.url).Nodup →
      rec ∈ rs →
      ∃ res, updateDocLoop env rs doc = Except.ok res ∧
        (jEqB (stripVolatile doc) (stripVolatile remoteDoc) = true →
          recReqs rec.url res.reqs = []) ∧
        (jEqB (stripVolatile doc) (stripVolatile remoteDoc) = false →
          ∃ body rev0, recReqs rec.url res.reqs = [SentReq.docPut rec.url body] ∧
            assertString remoteDoc "_rev" = some rev0 ∧
            jGet body "_rev" = some (JVal.str rev0) ∧
            stripVolatile body = stripVolatile doc) := by
  intro rs
  induction rs with
  | nil => intro doc _ _ _ _ h; cases h
  | cons r rest ih =>
    intro doc hid hrev hwf hnd hmem
    rw [List.map_cons, List.nodup_cons] at hnd
    obtain ⟨hnotin, hnd2⟩ := hnd
    have hwf2 : ∀ x ∈ rest, ∀ d, env.fetchDoc x = DocFetch.found d →
        (assertString d "_rev").isSome :=
      fun x hx => hwf x (List.mem_cons_of_mem r hx)
    rcases List.mem_cons.mp hmem with rfl | hmem2
    · -- `rec` is the head of the list
      have hd0 : (assertString remoteDoc "_rev").isSome :=
        hwf rec (List.mem_cons_self rec rest) remoteDoc hf
      have hch := docHasChanges_eq_some doc remoteDoc hid hrev hd0
      have havoid2 : ∀ x ∈ rest, x.url ≠ rec.url := by
        intro x hx hxu
        exact hnotin (hxu ▸ List.mem_map_of_mem RecipientInfo.url hx)
      cases hb : jEqB (stripVolatile doc) (stripVolatile remoteDoc) with
      | true =>
        obtain ⟨res, hres, hfil⟩ :=
          updateDocLoop_avoid env rec.url rest doc hid hrev hwf2 havoid2
        refine ⟨{ res with attempted := rec.url :: res.attempted }, ?_, ?_, ?_⟩
        · simp [updateDocLoop, hf, hch, hb, hres]
        · intro _; exact hfil
        · intro h; cases h
      | false =>
        obtain ⟨rev0, hrev0⟩ := Option.isSome_iff_exists.mp hd0
        have hid1 : (assertString (jSetRev doc rev0) "_id").isSome := by
          rw [assertString_jSetRev_id]; exact hid
        have hrev1 : (assertString (jSetRev doc rev0) "_rev").isSome := by
          rw [assertString_jSetRev_rev]; rfl
        obtain ⟨res, hres, hfil⟩ :=
          updateDocLoop_avoid env rec.url rest (jSetRev doc rev0) hid1 hrev1 hwf2 havoid2
        refine ⟨{ reqs := SentReq.docPut rec.url (jSetRev doc rev0) :: res.reqs,
                  errs := (if env.sendOk rec then [] else ["send failed: " ++ rec.url])
                            ++ res.errs,
                  attempted := rec.url :: res.attempted }, ?_, ?_, ?_⟩
        · simp [updateDocLoop, hf, hch, hb, hrev0, hres]
        · intro h; cases h
        · intro _
          refine ⟨jSetRev doc rev0, rev0, ?_, hrev0, jGet_jSetRev doc rev0,
                  stripVolatile_jSetRev doc rev0⟩
          rw [recReqs_cons_eq _ _ _ (by simp [SentReq.recUrl]), hfil]
    · -- `rec` is in the tail
      have hru : r.url ≠ rec.url := by
        intro hx
        exact hnotin (hx ▸ List.mem_map_of_mem RecipientInfo.url hmem2)
      cases hfr : env.fetchDoc r with
      | found d0 =>
        have hd0 : (assertString d0 "_rev").isSome :=
          hwf r (List.mem_cons_self r rest) d0 hfr
        have hch := docHasChanges_eq_some doc d0 hid hrev hd0
        cases hb : jEqB (stripVolatile doc) (stripVolatile d0) with
        | true =>
          obtain ⟨res, hres, h1, h2⟩ := ih doc hid hrev hwf2 hnd2 hmem2
          refine ⟨{ res with attempted := r.url :: res.attempted }, ?_, h1, h2⟩
          simp [updateDocLoop, hfr, hch, hb, hres]
        | false =>
          obtain ⟨rev0, hrev0⟩ := Option.isSome_iff_exists.mp hd0
          have hid1 : (assertString (jSetRev doc rev0) "_id").isSome := by
            rw [assertString_jSetRev_id]; exact hid
          have hrev1 : (assertString (jSetRev doc rev0) "_rev").isSome := by
            rw [assertString_jSetRev_rev]; rfl
          obtain ⟨res, hres, h1, h2⟩ := ih (jSetRev doc rev0) hid1 hrev1 hwf2 hnd2 hmem2
          rw [stripVolatile_jSetRev doc rev0] at h1 h2
          refine ⟨{ reqs := SentReq.docPut r.url (jSetRev doc rev0) :: res.reqs,
                    errs := (if env.sendOk r then [] else ["send failed: " ++ r.url])
                              ++ res.errs,
                    attempted := r.url :: res.attempted }, ?_, ?_, ?_⟩
          · simp [updateDocLoop, hfr, hch, hb, hrev0, hres]
          · intro h
            rw [recReqs_cons_ne _ _ _ (by simpa [SentReq.recUrl] using hru)]
            exact h1 h
          · intro h
            obtain ⟨body, rv, hb1, hb2, hb3, hb4⟩ := h2 h
            refine ⟨body, rv, ?_, hb2, hb3, hb4⟩
            rw [recReqs_cons_ne _ _ _ (by simpa [SentReq.recUrl] using hru)]
            exact hb1
      | notFound =>
        obtain ⟨res, hres, h1, h2⟩ := ih doc hid hrev hwf2 hnd2 hmem2
        refine ⟨{ res with
                    errs := ("get remote doc failed: " ++ r.url) :: res.errs,
                    attempted := r.url :: res.attempted }, ?_, h1, h2⟩
        simp [updateDocLoop, hfr, hres]
      | fetchError =>
        obtain ⟨res, hres, h1, h2⟩ := ih doc hid hrev hwf2 hnd2 hmem2
        refine ⟨{ res with
                    errs := ("get remote doc failed: " ++ r.url) :: res.errs,
                    attempted := r.url :: res.attempted }, ?_, h1, h2⟩
        simp [updateDocLoop, hfr, hres]

theorem updateDocLoop_notfound_spec (env : Env) (rec : RecipientInfo)
    (hf : env.fetchDoc rec = DocFetch.notFound) :
    ∀ (rs : List RecipientInfo) (doc : JMap),
      (assertString doc "_id").isSome → (assertString doc "_rev").isSome →
      (∀ r ∈ rs, ∀ d, env.fetchDoc r = DocFetch.found d →
        (assertString d "_rev").isSome) →
      (rs.map RecipientInfo.url).Nodup →
      rec ∈ rs →
      ∃ res, updateDocLoop env rs doc = Except.ok res ∧
        recReqs rec.url res.reqs = [] ∧ rec.url ∈ res.attempted ∧
        ("get remote doc failed: " ++ rec.url) ∈ res.errs := by
  intro rs
  induction rs with
  | nil => intro doc _ _ _ _ h; cases h
  | cons r rest ih =>
    intro doc hid hrev hwf hnd hmem
    rw [List.map_cons, List.nodup_cons] at hnd
    obtain ⟨hnotin, hnd2⟩ := hnd
    have hwf2 : ∀ x ∈ rest, ∀ d, env.fetchDoc x = DocFetch.found d →
        (assertString d "_rev").isSome :=
      fun x hx => hwf x (List.mem_cons_of_mem r hx)
    rcases List.mem_cons.mp hmem with rfl | hmem2
    · have havoid2 : ∀ x ∈ rest, x.url ≠ rec.url := by
        intro x hx hxu
        exact hnotin (hxu ▸ List.mem_map_of_mem RecipientInfo.url hx)
      obtain ⟨res, hres, hfil⟩ :=
        updateDocLoop_avoid env rec.url rest doc hid hrev hwf2 havoid2
      refine ⟨{ res with
                  errs := ("get remote doc failed: " ++ rec.url) :: res.errs,
                  attempted := rec.url :: res.attempted }, ?_, hfil,
              List.mem_cons_self _ _, List.mem_cons_self _ _⟩
      simp [updateDocLoop, hf, hres]
    · have hru : r.url ≠ rec.url := by
        intro hx
        exact hnotin (hx ▸ List.mem_map_of_mem RecipientInfo.url hmem2)
      cases hfr : env.fetchDoc r with
      | found d0 =>
        have hd0 : (assertString d0 "_rev").isSome :=
          hwf r (List.mem_cons_self r rest) d0 hfr
        have hch := docHasChanges_eq_some doc d0 hid hrev hd0
        cases hb : jEqB (stripVolatile doc) (stripVolatile d0) with
        | true =>
          obtain ⟨res, hres, h1, h2, h3⟩ := ih doc hid hrev hwf2 hnd2 hmem2
          refine ⟨{ res with attempted := r.url :: res.attempted }, ?_, h1,
                  List.mem_cons_of_mem _ h2, h3⟩
          simp [updateDocLoop, hfr, hch, hb, hres]
        | false =>
          obtain ⟨rev0, hrev0⟩ := Option.isSome_iff_exists.mp hd0
          have hid1 : (assertString (jSetRev doc rev0) "_id").isSome := by
            rw [assertString_jSetRev_id]; exact hid
          have hrev1 : (assertString (jSetRev doc rev0) "_rev").isSome := by
            rw [assertString_jSetRev_rev]; rfl
          obtain ⟨res, hres, h1, h2, h3⟩ := ih (jSetRev doc rev0) hid1 hrev1 hwf2 hnd2 hmem2
          refine ⟨{ reqs := SentReq.docPut r.url (jSetRev doc rev0) :: res.reqs,
                    errs := (if env.sendOk r then [] else ["send failed: " ++ r.url])
                              ++ res.errs,
                    attempted := r.url :: res.attempted }, ?_, ?_,
                  List.mem_cons_of_mem _ h2, List.mem_append_right _ h3⟩
          · simp [updateDocLoop, hfr, hch, hb, hrev0, hres]
          · rw [recReqs_cons_ne _ _ _ (by simpa [SentReq.recUrl] using hru)]
            exact h1
      | notFound =>
        obtain ⟨res, hres, h1, h2, h3⟩ := ih doc hid hrev hwf2 hnd2 hmem2
        refine ⟨{ res with
                    errs := ("get remote doc failed: " ++ r.url) :: res.errs,
                    attempted := r.url :: res.attempted }, ?_, h1,
                List.mem_cons_of_mem _ h2, List.mem_cons_of_mem _ h3⟩
        simp [updateDocLoop, hfr, hres]
      | fetchError =>
        obtain ⟨res, hres, h1, h2, h3⟩ := ih doc hid hrev hwf2 hnd2 hmem2
        refine ⟨{ res with
                    errs := ("get remote doc failed: " ++ r.url) :: res.errs,
                    attempted := r.url :: res.attempted }, ?_, h1,
                List.mem_cons_of_mem _ h2, List.mem_cons_of_mem _ h3⟩
        simp [updateDocLoop, hfr, hres]

/-- C3: for a generic-document update and a recipient whose remote copy was
fetched, when the bodies agree outside `_id`/`_rev` no request is sent to
that recipient; when they differ exactly one full PUT is sent whose body is
the local document carrying the remote's current `_rev`.  (Well-formedness
hypotheses keep the unchecked type assertions of C10 from firing.) -/
theorem c3_generic_update_diff (env : Env) (localDoc : JMap)
    (recipients : List RecipientInfo) (rec : RecipientInfo) (remoteDoc : JMap)
    (hid : (assertString localDoc "_id").isSome)
    (hrev : (assertString localDoc "_rev").isSome)
    (hwf : ∀ r ∈ recipients, ∀ d, env.fetchDoc r = DocFetch.found d →
      (assertString d "_rev").isSome)
    (hnd : (recipients.map RecipientInfo.url).Nodup)
    (hmem : rec ∈ recipients)
    (hf : env.fetchDoc rec = DocFetch.found remoteDoc) :
    ∃ res, updateDoc env localDoc recipients = Except.ok res ∧
      (jEqB (stripVolatile localDoc) (stripVolatile remoteDoc) = true →
        recReqs rec.url res.reqs = []) ∧
      (jEqB (stripVolatile localDoc) (stripVolatile remoteDoc) = false →
        ∃ body rev0, recReqs rec.url res.reqs = [SentReq.docPut rec.url body] ∧
          assertString remoteDoc "_rev" = some rev0 ∧
          jGet body "_rev" = some (JVal.str rev0) ∧
          stripVolatile body = stripVolatile localDoc) :=
  updateDocLoop_rec_spec env rec remoteDoc hf recipients localDoc hid hrev hwf hnd hmem

/-! ### Lemmas about the file-path helpers -/

theorem recReqs_append (u : String) (a b : List SentReq) :
    recReqs u (a ++ b) = recReqs u a ++ recReqs u b := by
  simp [recReqs, List.filter_append]

theorem recReqs_singleton_ne (u : String) (x : SentReq) (h : x.recUrl ≠ u) :
    recReqs u [x] = [] := by
  simp [recReqs, h]

theorem recReqs_singleton_eq (u : String) (x : SentReq) (h : x.recUrl = u) :
    recReqs u [x] = [x] := by
  simp [recReqs, h]

theorem mem_recReqs_iff (u : String) (x : SentReq) (reqs : List SentReq) :
    x ∈ recReqs u reqs ↔ x ∈ reqs ∧ x.recUrl = u := by
  simp [recReqs, List.mem_filter]

theorem eq_of_mem_of_nodup_map {α β : Type} (f : α → β) {l : List α}
    (h : (l.map f).Nodup) {a b : α} (ha : a ∈ l) (hb : b ∈ l) (hf : f a = f b) :
    a = b := by
  induction l with
  | nil => cases ha
  | cons x xs ih =>
    rw [List.map_cons, List.nodup_cons] at h
    rcases List.mem_cons.mp ha with rfl | ha2 <;>
      rcases List.mem_cons.mp hb with rfl | hb2
    · rfl
    · exact absurd (by rw [hf]; exact List.mem_map_of_mem f hb2) h.1
    · exact absurd (by rw [← hf]; exact List.mem_map_of_mem f ha2) h.1
    · exact ih h.2 ha2 hb2

theorem getParentDirID_isOk (opts : SendOptions) (dirID : String)
    (h : opts.docID ≠ rootDirID) :
    ∃ pid, getParentDirID opts dirID = Except.ok pid := by
  unfold getParentDirID
  by_cases hs : opts.selector = ""
  · rw [if_pos hs, if_neg h]
    by_cases hi : isShared opts.docID opts.values = true <;> simp [hi]
  · simp [hs]

theorem fillDetails_ok (env : Env) (opts : SendOptions) (fileDoc : FileDoc)
    (fs : FileState) (h : fs.fileOptsSet = true ∨ env.openOk = true) :
    ∃ fs1, fillDetailsAndOpenFile env opts fileDoc fs = Except.ok fs1 ∧
      fs1.fileOptsSet = true := by
  unfold fillDetailsAndOpenFile
  by_cases hset : fs.fileOptsSet = true
  · rw [if_pos hset]; exact ⟨fs, rfl, hset⟩
  · rw [if_neg hset]
    rcases h with h | h
    · exact absurd h hset
    · rw [if_pos h]; exact ⟨_, rfl, rfl⟩

theorem sendFileToRecipient_ok_of_set (docRev : String) (rec : RecipientInfo)
    (put : Bool) (fs : FileState) (h : fs.fileOptsSet = true) :
    ∃ fs1, sendFileToRecipient docRev rec put fs =
        Except.ok (fs1, if put then SentReq.filePut rec.url fs1.queries
                        else SentReq.filePost rec.url fs1.queries) ∧
      fs1.fileOptsSet = true ∧
      (docRev ≠ "" → ("rev", docRev) ∈ fs1.queries) := by
  unfold sendFileToRecipient
  rw [if_neg (by simp [h])]
  by_cases hd : docRev = ""
  · refine ⟨fs, ?_, h, fun hc => absurd hd hc⟩
    rw [if_neg (by simp [hd])]
  · refine ⟨{ fs with queries := fs.queries ++ [("rev", docRev)] }, ?_, h, ?_⟩
    · rw [if_pos hd]
    · intro _
      exact List.mem_append_right _ (List.mem_singleton.mpr rfl)

theorem sendFileToRecipient_shape (docRev : String) (rec : RecipientInfo)
    (put : Bool) (fs fs1 : FileState) (req : SentReq)
    (h : sendFileToRecipient docRev rec put fs = Except.ok (fs1, req)) :
    req = (if put then SentReq.filePut rec.url fs1.queries
           else SentReq.filePost rec.url fs1.queries) := by
  unfold sendFileToRecipient at h
  split at h
  · exact absurd h (by simp)
  · simp only [Except.ok.injEq, Prod.mk.injEq] at h
    obtain ⟨h1, h2⟩ := h
    rw [← h1, ← h2]

theorem sendFileLoop_reqs_post (env : Env) (docRev : String) :
    ∀ (rs : List RecipientInfo) (fs : FileState),
      ∀ x ∈ (sendFileLoop env docRev rs fs).reqs, ∃ u q, x = SentReq.filePost u q := by
  intro rs
  induction rs with
  | nil => intro fs x hx; cases hx
  | cons r rest ih =>
    intro fs x hx
    cases hs : sendFileToRecipient docRev r false fs with
    | error e =>
      simp only [sendFileLoop, hs] at hx
      exact ih fs x hx
    | ok p =>
      obtain ⟨fs1, req⟩ := p
      have hshape := sendFileToRecipient_shape docRev r false fs fs1 req hs
      simp only [sendFileLoop, hs] at hx
      rcases List.mem_cons.mp hx with rfl | hx2
      · exact ⟨r.url, fs1.queries, by simpa using hshape⟩
      · exact ih fs1 x hx2

theorem sendFileLoop_mem_post (env : Env) (docRev : String) :
    ∀ (rs : List RecipientInfo) (fs : FileState), fs.fileOptsSet = true →
      ∀ r ∈ rs, ∃ q, SentReq.filePost r.url q ∈ (sendFileLoop env docRev rs fs).reqs := by
  intro rs
  induction rs with
  | nil => intro fs _ r hr; cases hr
  | cons r0 rest ih =>
    intro fs hset r hr
    obtain ⟨fs1, hs, hset1, _⟩ := sendFileToRecipient_ok_of_set docRev r0 false fs hset
    rcases List.mem_cons.mp hr with rfl | hr2
    · refine ⟨fs1.queries, ?_⟩
      simp only [sendFileLoop, hs]
      simp
    · obtain ⟨q, hq⟩ := ih fs1 hset1 r hr2
      refine ⟨q, ?_⟩
      simp only [sendFileLoop, hs]
      exact List.mem_cons_of_mem _ hq

theorem sendFile_reqs_post (env : Env) (opts : SendOptions) (fileDoc : FileDoc)
    (rs : List RecipientInfo) (docRev : String) (fs0 : FileState) :
    ∀ x ∈ (sendFile env opts fileDoc rs docRev fs0).reqs,
      ∃ u q, x = SentReq.filePost u q := by
  intro x hx
  cases hfill : fillDetailsAndOpenFile env opts fileDoc fs0 with
  | error e => simp [sendFile, hfill] at hx
  | ok fs1 =>
    simp only [sendFile, hfill] at hx
    exact sendFileLoop_reqs_post env docRev rs _ x hx

theorem sendFile_mem_post (env : Env) (opts : SendOptions) (fileDoc : FileDoc)
    (rs : List RecipientInfo) (docRev : String) (fs0 : FileState)
    (hopen : env.openOk = true) (r : RecipientInfo) (hr : r ∈ rs) :
    ∃ q, SentReq.filePost r.url q ∈ (sendFile env opts fileDoc rs docRev fs0).reqs := by
  obtain ⟨fs1, hfill, hset1⟩ := fillDetails_ok env opts fileDoc fs0 (Or.inr hopen)
  obtain ⟨q, hq⟩ := sendFileLoop_mem_post env docRev rs
    { fs1 with queries := fs1.queries ++ [("dir_id", sharedWithMeDirID)] } hset1 r hr
  refine ⟨q, ?_⟩
  simp only [sendFile, hfill]
  exact hq

/-! ### Per-iteration lemmas for the UpdateOrPatchFile loop -/

theorem upfStep_reqs_cases (env : Env) (opts : SendOptions) (fileDoc : FileDoc)
    (all : List RecipientInfo) (r : RecipientInfo) (st : UPFState) :
    (upfStep env opts fileDoc all r st).reqs = st.reqs ∨
    (∃ x, (upfStep env opts fileDoc all r st).reqs = st.reqs ++ [x] ∧
      x.recUrl = r.url) ∨
    (env.fetchFile r = FileFetch.notFound ∧
      (upfStep env opts fileDoc all r st).reqs =
        st.reqs ++ (sendFile env opts fileDoc all st.docRev st.fs).reqs) := by
  cases hfr : env.fetchFile r with
  | fetchError => exact Or.inl (by simp [upfStep, hfr])
  | notFound => exact Or.inr (Or.inr ⟨rfl, by simp [upfStep, hfr]⟩)
  | found remote =>
    by_cases hm : fileDoc.md5 = remote.md5
    · by_cases hch : fileHasChanges fileDoc remote = true
      · cases hp : getParentDirID opts fileDoc.dirID with
        | error e => exact Or.inl (by simp [upfStep, hfr, hm, hch, hp])
        | ok pid =>
          exact Or.inr (Or.inl
            ⟨SentReq.metaPatch r.url remote.rev pid fileDoc.docName fileDoc.tags,
             by simp [upfStep, hfr, hm, hch, hp], rfl⟩)
      · by_cases hs : opts.selector = selectorReferencedBy
        · by_cases hd : findNewRefs opts fileDoc.referencedBy remote.referencedBy = []
          · exact Or.inl (by simp [upfStep, hfr, hm, hch, hs, hd])
          · exact Or.inr (Or.inl
              ⟨SentReq.refAdd r.url
                 (findNewRefs opts fileDoc.referencedBy remote.referencedBy),
               by simp [upfStep, hfr, hm, hch, hs, hd], rfl⟩)
        · exact Or.inl (by simp [upfStep, hfr, hm, hch, hs])
    · cases hfill : fillDetailsAndOpenFile env opts fileDoc st.fs with
      | error e => exact Or.inl (by simp [upfStep, hfr, hm, hfill])
      | ok fs1 =>
        cases hsend : sendFileToRecipient remote.rev r true fs1 with
        | error e => exact Or.inl (by simp [upfStep, hfr, hm, hfill, hsend])
        | ok p =>
          obtain ⟨fs2, req⟩ := p
          have hshape := sendFileToRecipient_shape remote.rev r true fs1 fs2 req hsend
          refine Or.inr (Or.inl ⟨req, by simp [upfStep, hfr, hm, hfill, hsend], ?_⟩)
          rw [hshape]
          simp [SentReq.recUrl]

theorem upfStep_reqs_other (env : Env) (opts : SendOptions) (fileDoc : FileDoc)
    (all : List RecipientInfo) (r : RecipientInfo) (st : UPFState) (u : String)
    (hnf : env.fetchFile r ≠ FileFetch.notFound) (hne : r.url ≠ u) :
    recReqs u (upfStep env opts fileDoc all r st).reqs = recReqs u st.reqs := by
  rcases upfStep_reqs_cases env opts fileDoc all r st with h | ⟨x, hx, hxu⟩ | ⟨hn, _⟩
  · rw [h]
  · rw [hx, recReqs_append, recReqs_singleton_ne u x (by rw [hxu]; exact hne)]
    simp
  · exact absurd hn hnf

theorem upfStep_reqs_prefix (env : Env) (opts : SendOptions) (fileDoc : FileDoc)
    (all : List RecipientInfo) (r : RecipientInfo) (st : UPFState) :
    ∃ δ, (upfStep env opts fileDoc all r st).reqs = st.reqs ++ δ := by
  rcases upfStep_reqs_cases env opts fileDoc all r st with h | ⟨x, hx, _⟩ | ⟨_, hn⟩
  · exact ⟨[], by rw [h, List.append_nil]⟩
  · exact ⟨[x], hx⟩
  · exact ⟨_, hn⟩

theorem upfStep_put (env : Env) (opts : SendOptions) (fileDoc : FileDoc)
    (all : List RecipientInfo) (rec : RecipientInfo) (st : UPFState)
    (remote : FileDoc)
    (hf : env.fetchFile rec = FileFetch.found remote)
    (hm : fileDoc.md5 ≠ remote.md5)
    (hopen : env.openOk = true)
    (hrev : remote.rev ≠ "") :
    ∃ q, (upfStep env opts fileDoc all rec st).reqs =
        st.reqs ++ [SentReq.filePut rec.url q] ∧ ("rev", remote.rev) ∈ q := by
  obtain ⟨fs1, hfill, hset1⟩ := fillDetails_ok env opts fileDoc st.fs (Or.inr hopen)
  obtain ⟨fs2, hsend, _, hrevmem⟩ :=
    sendFileToRecipient_ok_of_set remote.rev rec true fs1 hset1
  refine ⟨fs2.queries, ?_, hrevmem hrev⟩
  simp [upfStep, hf, hm, hfill, hsend]

theorem upfStep_patch (env : Env) (opts : SendOptions) (fileDoc : FileDoc)
    (all : List RecipientInfo) (rec : RecipientInfo) (st : UPFState)
    (remote : FileDoc)
    (hf : env.fetchFile rec = FileFetch.found remote)
    (hm : fileDoc.md5 = remote.md5)
    (hch : fileHasChanges fileDoc remote = true)
    (hroot : opts.docID ≠ rootDirID) :
    ∃ pid, (upfStep env opts fileDoc all rec st).reqs =
      st.reqs ++ [SentReq.metaPatch rec.url remote.rev pid
        fileDoc.docName fileDoc.tags] := by
  obtain ⟨pid, hpid⟩ := getParentDirID_isOk opts fileDoc.dirID hroot
  exact ⟨pid, by simp [upfStep, hf, hm, hch, hpid]⟩

theorem upfStep_refadd (env : Env) (opts : SendOptions) (fileDoc : FileDoc)
    (all : List RecipientInfo) (rec : RecipientInfo) (st : UPFState)
    (remote : FileDoc)
    (hf : env.fetchFile rec = FileFetch.found remote)
    (hm : fileDoc.md5 = remote.md5)
    (hch : fileHasChanges fileDoc remote = false)
    (hdelta : findNewRefs opts fileDoc.referencedBy remote.referencedBy ≠ []) :
    (upfStep env opts fileDoc all rec st).reqs =
      st.reqs ++ [SentReq.refAdd rec.url
        (findNewRefs opts fileDoc.referencedBy remote.referencedBy)] := by
  by_cases hs : opts.selector = selectorReferencedBy
  · simp [upfStep, hf, hm, hch, hs, hdelta]
  · exact absurd (findNewRefs_nil_of_selector opts hs _ _) hdelta

theorem upfStep_noop (env : Env) (opts : SendOptions) (fileDoc : FileDoc)
    (all : List RecipientInfo) (rec : RecipientInfo) (st : UPFState)
    (remote : FileDoc)
    (hf : env.fetchFile rec = FileFetch.found remote)
    (hm : fileDoc.md5 = remote.md5)
    (hch : fileHasChanges fileDoc remote = false)
    (hdelta : findNewRefs opts fileDoc.referencedBy remote.referencedBy = []) :
    (upfStep env opts fileDoc all rec st).reqs = st.reqs := by
  by_cases hs : opts.selector = selectorReferencedBy
  · simp [upfStep, hf, hm, hch, hs, hdelta]
  · simp [upfStep, hf, hm, hch, hs]

/-! ### Loop-level lemmas for UpdateOrPatchFile -/

theorem upfLoop_cons (env : Env) (opts : SendOptions) (fileDoc : FileDoc)
    (all : List RecipientInfo) (r : RecipientInfo) (rest : List RecipientInfo)
    (st : UPFState) :
    updateOrPatchFileLoop env opts fileDoc all (r :: rest) st =
      updateOrPatchFileLoop env opts fileDoc all rest
        (upfStep env opts fileDoc all r st) := rfl

theorem updateOrPatchFile_reqs (env : Env) (opts : SendOptions) (fileDoc : FileDoc)
    (rs : List RecipientInfo) :
    (updateOrPatchFile env opts fileDoc rs).reqs =
      (updateOrPatchFileLoop env opts fileDoc rs rs initUPFState).reqs := rfl

theorem upfLoop_reqs_avoid (env : Env) (opts : SendOptions) (fileDoc : FileDoc)
    (all : List RecipientInfo) (u : String) :
    ∀ (rs : List RecipientInfo) (st : UPFState),
      (∀ r ∈ rs, env.fetchFile r ≠ FileFetch.notFound) →
      (∀ r ∈ rs, r.url ≠ u) →
      recReqs u (updateOrPatchFileLoop env opts fileDoc all rs st).reqs =
        recReqs u st.reqs := by
  intro rs
  induction rs with
  | nil => intro st _ _; rfl
  | cons r rest ih =>
    intro st hnf havoid
    rw [upfLoop_cons,
        ih _ (fun x hx => hnf x (List.mem_cons_of_mem r hx))
          (fun x hx => havoid x (List.mem_cons_of_mem r hx)),
        upfStep_reqs_other env opts fileDoc all r st u
          (hnf r (List.mem_cons_self r rest)) (havoid r (List.mem_cons_self r rest))]

theorem upfLoop_reqs_prefix (env : Env) (opts : SendOptions) (fileDoc : FileDoc)
    (all : List RecipientInfo) :
    ∀ (rs : List RecipientInfo) (st : UPFState),
      ∃ δ, (updateOrPatchFileLoop env opts fileDoc all rs st).reqs = st.reqs ++ δ := by
  intro rs
  induction rs with
  | nil => intro st; exact ⟨[], by simp [updateOrPatchFileLoop]⟩
  | cons r rest ih =>
    intro st
    obtain ⟨d1, h1⟩ := upfStep_reqs_prefix env opts fileDoc all r st
    obtain ⟨d2, h2⟩ := ih (upfStep env opts fileDoc all r st)
    exact ⟨d1 ++ d2, by rw [upfLoop_cons, h2, h1, List.append_assoc]⟩

theorem upfLoop_absent_gets_create (env : Env) (opts : SendOptions)
    (fileDoc : FileDoc) (all : List RecipientInfo) (rec : RecipientInfo)
    (hopen : env.openOk = true) (hrecall : rec ∈ all)
    (hf : env.fetchFile rec = FileFetch.notFound) :
    ∀ (rs : List RecipientInfo) (st : UPFState), rec ∈ rs →
      ∃ q, SentReq.filePost rec.url q ∈
        (updateOrPatchFileLoop env opts fileDoc all rs st).reqs := by
  intro rs
  induction rs with
  | nil => intro st h; cases h
  | cons r rest ih =>
    intro st hmem
    rw [upfLoop_cons]
    rcases List.mem_cons.mp hmem with rfl | hmem2
    · obtain ⟨q, hq⟩ :=
        sendFile_mem_post env opts fileDoc all st.docRev st.fs hopen rec hrecall
      obtain ⟨δ, hδ⟩ := upfLoop_reqs_prefix env opts fileDoc all rest
        (upfStep env opts fileDoc all rec st)
      refine ⟨q, ?_⟩
      rw [hδ]
      apply List.mem_append_left
      show SentReq.filePost rec.url q ∈ (upfStep env opts fileDoc all rec st).reqs
      simp only [upfStep, hf]
      exact List.mem_append_right _ hq
    · exact ih (upfStep env opts fileDoc all r st) hmem2

theorem upfLoop_post_invariant (env : Env) (opts : SendOptions) (fileDoc : FileDoc)
    (all : List RecipientInfo) (u : String) :
    ∀ (rs : List RecipientInfo) (st : UPFState),
      (∀ r ∈ rs, r.url = u → env.fetchFile r = FileFetch.notFound) →
      (∀ x ∈ st.reqs, x.recUrl = u → ∃ q, x = SentReq.filePost u q) →
      ∀ x ∈ (updateOrPatchFileLoop env opts fileDoc all rs st).reqs, x.recUrl = u →
        ∃ q, x = SentReq.filePost u q := by
  intro rs
  induction rs with
  | nil => intro st _ hinv x hx; exact hinv x hx
  | cons r rest ih =>
    intro st hcond hinv
    rw [upfLoop_cons]
    refine ih (upfStep env opts fileDoc all r st)
      (fun x hx => hcond x (List.mem_cons_of_mem r hx)) ?_
    intro x hx hxu
    cases hfr : env.fetchFile r with
    | notFound =>
      have hstep : (upfStep env opts fileDoc all r st).reqs =
          st.reqs ++ (sendFile env opts fileDoc all st.docRev st.fs).reqs := by
        simp [upfStep, hfr]
      rw [hstep] at hx
      rcases List.mem_append.mp hx with hx1 | hx2
      · exact hinv x hx1 hxu
      · obtain ⟨u0, q, hx3⟩ := sendFile_reqs_post env opts fileDoc all st.docRev st.fs x hx2
        subst hx3
        simp only [SentReq.recUrl] at hxu
        subst hxu
        exact ⟨q, rfl⟩
    | fetchError =>
      have hstep : (upfStep env opts fileDoc all r st).reqs = st.reqs := by
        simp [upfStep, hfr]
      rw [hstep] at hx
      exact hinv x hx hxu
    | found remote =>
      have hru : r.url ≠ u := by
        intro hc
        have hcnd := hcond r (List.mem_cons_self r rest) hc
        rw [hfr] at hcnd
        cases hcnd
      rcases upfStep_reqs_cases env opts fileDoc all r st with heq | ⟨x0, heq, hx0u⟩ | ⟨hn, _⟩
      · rw [heq] at hx; exact hinv x hx hxu
      · rw [heq] at hx
        rcases List.mem_append.mp hx with hx1 | hx2
        · exact hinv x hx1 hxu
        · rw [List.mem_singleton.mp hx2] at hxu
          exact absurd (hx0u.symm.trans hxu) hru
      · rw [hn] at hfr; cases hfr

theorem upfLoop_rec_classify (env : Env) (opts : SendOptions) (fileDoc : FileDoc)
    (all : List RecipientInfo) (rec : RecipientInfo) (remote : FileDoc)
    (hf : env.fetchFile rec = FileFetch.found remote)
    (hopen : env.openOk = true) (hroot : opts.docID ≠ rootDirID)
    (hrev : remote.rev ≠ "") :
    ∀ (rs : List RecipientInfo) (st : UPFState),
      (rs.map RecipientInfo.url).Nodup →
      (∀ r ∈ rs, env.fetchFile r ≠ FileFetch.notFound) →
      rec ∈ rs →
      recReqs rec.url st.reqs = [] →
      ((fileDoc.md5 ≠ remote.md5 →
          ∃ q, recReqs rec.url
              (updateOrPatchFileLoop env opts fileDoc all rs st).reqs =
            [SentReq.filePut rec.url q] ∧ ("rev", remote.rev) ∈ q) ∧
       (fileDoc.md5 = remote.md5 → fileHasChanges fileDoc remote = true →
          ∃ pid, recReqs rec.url
              (updateOrPatchFileLoop env opts fileDoc all rs st).reqs =
            [SentReq.metaPatch rec.url remote.rev pid fileDoc.docName fileDoc.tags]) ∧
       (fileDoc.md5 = remote.md5 → fileHasChanges fileDoc remote = false →
          findNewRefs opts fileDoc.referencedBy remote.referencedBy ≠ [] →
          recReqs rec.url (updateOrPatchFileLoop env opts fileDoc all rs st).reqs =
            [SentReq.refAdd rec.url
              (findNewRefs opts fileDoc.referencedBy remote.referencedBy)]) ∧
       (fileDoc.md5 = remote.md5 → fileHasChanges fileDoc remote = false →
          findNewRefs opts fileDoc.referencedBy remote.referencedBy = [] →
          recReqs rec.url (updateOrPatchFileLoop env opts fileDoc all rs st).reqs
            = [])) := by
  intro rs
  induction rs with
  | nil => intro st _ _ h; cases h
  | cons r rest ih =>
    intro st hnd hnf hmem hst
    rw [List.map_cons, List.nodup_cons] at hnd
    obtain ⟨hnotin, hnd2⟩ := hnd
    have hnf2 : ∀ x ∈ rest, env.fetchFile x ≠ FileFetch.notFound :=
      fun x hx => hnf x (List.mem_cons_of_mem r hx)
    rcases List.mem_cons.mp hmem with rfl | hmem2
    · have havoid2 : ∀ x ∈ rest, x.url ≠ rec.url := by
        intro x hx hxu
        exact hnotin (hxu ▸ List.mem_map_of_mem RecipientInfo.url hx)
      have htail := upfLoop_reqs_avoid env opts fileDoc all rec.url rest
        (upfStep env opts fileDoc all rec st) hnf2 havoid2
      rw [upfLoop_cons]
      refine ⟨?_, ?_, ?_, ?_⟩
      · intro hm
        obtain ⟨q, hq, hqm⟩ :=
          upfStep_put env opts fileDoc all rec st remote hf hm hopen hrev
        refine ⟨q, ?_, hqm⟩
        rw [htail, hq, recReqs_append, hst]
        simp [recReqs, SentReq.recUrl]
      · intro hm hch
        obtain ⟨pid, hq⟩ :=
          upfStep_patch env opts fileDoc all rec st remote hf hm hch hroot
        refine ⟨pid, ?_⟩
        rw [htail, hq, recReqs_append, hst]
        simp [recReqs, SentReq.recUrl]
      · intro hm hch hd
        rw [htail, upfStep_refadd env opts fileDoc all rec st remote hf hm hch hd,
            recReqs_append, hst]
        simp [recReqs, SentReq.recUrl]
      · intro hm hch hd
        rw [htail, upfStep_noop env opts fileDoc all rec st remote hf hm hch hd, hst]
    · have hru : r.url ≠ rec.url := by
        intro hx
        exact hnotin (hx ▸ List.mem_map_of_mem RecipientInfo.url hmem2)
      have hst2 : recReqs rec.url (upfStep env opts fileDoc all r st).reqs = [] := by
        rw [upfStep_reqs_other env opts fileDoc all r st rec.url
          (hnf r (List.mem_cons_self r rest)) hru, hst]
      rw [upfLoop_cons]
      exact ih (upfStep env opts fileDoc all r st) hnd2 hnf2 hmem2 hst2

/-- C1 (amended): when the content stream opens and no co-recipient's
snapshot is absent, a recipient with a present snapshot is classified in
priority order: differing hash → exactly one content PUT carrying the
recipient's existing revision in its `rev` query values; equal hash with a
name or tag difference → exactly one metadata patch; everything equal with a
non-empty missing-reference delta → exactly one reference-add; otherwise no
mutating request to that recipient.  (The proviso is forced: when another
recipient's snapshot is absent, the delegated create path POSTs the file to
every recipient, including NoOp ones — see the counterexample.) -/
theorem c1_file_update_classification (env : Env) (opts : SendOptions)
    (fileDoc : FileDoc) (recipients : List RecipientInfo) (rec : RecipientInfo)
    (remote : FileDoc)
    (hopen : env.openOk = true)
    (hroot : opts.docID ≠ rootDirID)
    (hnd : (recipients.map RecipientInfo.url).Nodup)
    (hnf : ∀ r ∈ recipients, env.fetchFile r ≠ FileFetch.notFound)
    (hmem : rec ∈ recipients)
    (hf : env.fetchFile rec = FileFetch.found remote)
    (hrev : remote.rev ≠ "") :
    (fileDoc.md5 ≠ remote.md5 →
      ∃ q, recReqs rec.url (updateOrPatchFile env opts fileDoc recipients).reqs =
        [SentReq.filePut rec.url q] ∧ ("rev", remote.rev) ∈ q) ∧
    (fileDoc.md5 = remote.md5 → fileHasChanges fileDoc remote = true →
      ∃ pid, recReqs rec.url (updateOrPatchFile env opts fileDoc recipients).reqs =
        [SentReq.metaPatch rec.url remote.rev pid fileDoc.docName fileDoc.tags]) ∧
    (fileDoc.md5 = remote.md5 → fileHasChanges fileDoc remote = false →
      findNewRefs opts fileDoc.referencedBy remote.referencedBy ≠ [] →
      recReqs rec.url (updateOrPatchFile env opts fileDoc recipients).reqs =
        [SentReq.refAdd rec.url
          (findNewRefs opts fileDoc.referencedBy remote.referencedBy)]) ∧
    (fileDoc.md5 = remote.md5 → fileHasChanges fileDoc remote = false →
      findNewRefs opts fileDoc.referencedBy remote.referencedBy = [] →
      recReqs rec.url (updateOrPatchFile env opts fileDoc recipients).reqs = []) := by
  rw [updateOrPatchFile_reqs]
  exact upfLoop_rec_classify env opts fileDoc recipients rec remote hf hopen hroot hrev
    recipients initUPFState hnd hnf hmem rfl

/-- C1 witness: one recipient holding an older content version receives
exactly one PUT whose `rev` query values include its revision. -/
theorem c1_witness :
    ∃ q, recReqs recB.url (updateOrPatchFile envC1w optsRefSel fdBase [recB]).reqs =
      [SentReq.filePut recB.url q] ∧ ("rev", remotePut.rev) ∈ q :=
  (c1_file_update_classification envC1w optsRefSel fdBase [recB] recB remotePut
    rfl (by decide) (by decide) (by intro r hr; simp [envC1w]) (by simp) rfl
    (by decide)).1 (by decide)

/-- C1 counterexample: recipient `b` holds an identical copy (equal hash,
name, tags, empty reference delta), yet a mutating request (a create POST)
is issued to `b`, because recipient `a`'s snapshot is absent and the
delegated create path POSTs to every recipient.  This refutes the claim's
"otherwise no mutating request is issued to that recipient". -/
theorem c1_counterexample :
    fdBase.md5 = remoteSame.md5 ∧
    fileHasChanges fdBase remoteSame = false ∧
    findNewRefs optsRefSel fdBase.referencedBy remoteSame.referencedBy = [] ∧
    envC1x.fetchFile recB = FileFetch.found remoteSame ∧
    recReqs recB.url (updateOrPatchFile envC1x optsRefSel fdBase [recA, recB]).reqs
      ≠ [] := by
  refine ⟨rfl, rfl, by decide, rfl, ?_⟩
  decide

/-- C2 (amended): on the file/directory update path an absent recipient
always receives a create POST (and every request it receives is a create);
on the generic-document update path a not-found fetch is handled like any
fetch failure: the recipient is skipped with the error recorded and no
create is issued. -/
theorem c2_create_on_absent :
    (∀ (env : Env) (opts : SendOptions) (fileDoc : FileDoc)
        (recipients : List RecipientInfo) (rec : RecipientInfo),
        env.openOk = true →
        (recipients.map RecipientInfo.url).Nodup →
        rec ∈ recipients →
        env.fetchFile rec = FileFetch.notFound →
        (recReqs rec.url (updateOrPatchFile env opts fileDoc recipients).reqs ≠ [] ∧
         ∀ x ∈ recReqs rec.url (updateOrPatchFile env opts fileDoc recipients).reqs,
           ∃ q, x = SentReq.filePost rec.url q)) ∧
    (∀ (env : Env) (localDoc : JMap) (recipients : List RecipientInfo)
        (rec : RecipientInfo),
        (assertString localDoc "_id").isSome →
        (assertString localDoc "_rev").isSome →
        (∀ r ∈ recipients, ∀ d, env.fetchDoc r = DocFetch.found d →
          (assertString d "_rev").isSome) →
        (recipients.map RecipientInfo.url).Nodup →
        rec ∈ recipients →
        env.fetchDoc rec = DocFetch.notFound →
        ∃ res, updateDoc env localDoc recipients = Except.ok res ∧
          recReqs rec.url res.reqs = [] ∧ rec.url ∈ res.attempted ∧
          ("get remote doc failed: " ++ rec.url) ∈ res.errs) := by
  constructor
  · intro env opts fileDoc recipients rec hopen hnd hmem hf
    constructor
    · obtain ⟨q, hq⟩ := upfLoop_absent_gets_create env opts fileDoc recipients rec
        hopen hmem hf recipients initUPFState hmem
      rw [← updateOrPatchFile_reqs] at hq
      exact List.ne_nil_of_mem ((mem_recReqs_iff _ _ _).mpr ⟨hq, rfl⟩)
    · intro x hx
      obtain ⟨hx1, hx2⟩ := (mem_recReqs_iff _ _ _).mp hx
      rw [updateOrPatchFile_reqs] at hx1
      refine upfLoop_post_invariant env opts fileDoc recipients rec.url
        recipients initUPFState ?_ (by intro y hy; cases hy) x hx1 hx2
      intro r' hr' hu
      rw [eq_of_mem_of_nodup_map RecipientInfo.url hnd hr' hmem hu, hf]
  · intro env localDoc recipients rec hid hrev hwf hnd hmem hf
    exact updateDocLoop_notfound_spec env rec hf recipients localDoc hid hrev hwf hnd hmem

/-- C2 witness: a single absent recipient on the file path receives only
create POSTs, and at least one. -/
theorem c2_witness :
    recReqs recA.url (updateOrPatchFile envAbsent optsC8 fdBase [recA]).reqs ≠ [] ∧
    ∀ x ∈ recReqs recA.url (updateOrPatchFile envAbsent optsC8 fdBase [recA]).reqs,
      ∃ q, x = SentReq.filePost recA.url q :=
  c2_create_on_absent.1 envAbsent optsC8 fdBase [recA] recA rfl (by decide)
    (by simp) rfl

/-- C2 counterexample: on the generic-document update path, a recipient
whose remote copy is absent (fetch classified not-found) gets no request at
all — the dispatch skips it instead of issuing a create, refuting the claim
for the generic path. -/
theorem c2_counterexample :
    envAbsent.fetchDoc recB = DocFetch.notFound ∧
    updateDoc envAbsent docLocal [recB] =
      Except.ok { reqs := [], errs := ["get remote doc failed: b"],
                  attempted := ["b"] } :=
  ⟨rfl, rfl⟩

/-- C4: delegating to the create path for an absent recipient makes
`SendFile`'s deferred close release the shared content stream while the
`set` flag stays true, and `UpdateOrPatchFile`'s own deferred close then
closes it a second time: the stream is opened once but closed twice,
violating the close-exactly-once invariant the claim states. -/
theorem c4_stream_double_close :
    (updateOrPatchFile envAbsent optsC8 fdBase [recA]).fs.opened = 1 ∧
    (updateOrPatchFile envAbsent optsC8 fdBase [recA]).fs.closed = 2 := by
  constructor <;> rfl

/-- C3 witness: one recipient holding a different body receives exactly one
PUT carrying the remote's current revision. -/
theorem c3_witness :
    ∃ res, updateDoc envC3 docLocal [recB] = Except.ok res ∧
      (jEqB (stripVolatile docLocal) (stripVolatile remoteDiffDoc) = true →
        recReqs recB.url res.reqs = []) ∧
      (jEqB (stripVolatile docLocal) (stripVolatile remoteDiffDoc) = false →
        ∃ body rev0, recReqs recB.url res.reqs = [SentReq.docPut recB.url body] ∧
          assertString remoteDiffDoc "_rev" = some rev0 ∧
          jGet body "_rev" = some (JVal.str rev0) ∧
          stripVolatile body = stripVolatile docLocal) :=
  c3_generic_update_diff envC3 docLocal [recB] recB remoteDiffDoc rfl rfl
    (by
      intro r hr d hd
      simp only [envC3] at hd
      cases hd
      rfl)
    (by decide) (by simp) rfl

/-! ### Attempted-recipient lemmas for the fan-out operations -/

theorem sendDocLoop_attempted (env : Env) (body : JMap) :
    ∀ rs : List RecipientInfo,
      (sendDocLoop env body rs).attempted = rs.map RecipientInfo.url := by
  intro rs
  induction rs with
  | nil => rfl
  | cons r rest ih => simp [sendDocLoop, ih]

theorem sendDirLoop_attempted (env : Env) (parentID : String) (dirDoc : DirDoc) :
    ∀ rs : List RecipientInfo,
      (sendDirLoop env parentID dirDoc rs).attempted = rs.map RecipientInfo.url := by
  intro rs
  induction rs with
  | nil => rfl
  | cons r rest ih => simp [sendDirLoop, ih]

theorem removeDirOrFileFromSharing_attempted (env : Env) (opts : SendOptions) :
    ∀ rs : List RecipientInfo,
      (removeDirOrFileFromSharing env opts rs).attempted = rs.map RecipientInfo.url := by
  intro rs
  induction rs with
  | nil => rfl
  | cons r rest ih => simp [removeDirOrFileFromSharing, ih]

theorem sendFileLoop_attempted (env : Env) (docRev : String) :
    ∀ (rs : List RecipientInfo) (fs : FileState),
      (sendFileLoop env docRev rs fs).attempted = rs.map RecipientInfo.url := by
  intro rs
  induction rs with
  | nil => intro fs; rfl
  | cons r rest ih =>
    intro fs
    cases hs : sendFileToRecipient docRev r false fs with
    | error e => simp [sendFileLoop, hs, ih]
    | ok p =>
      obtain ⟨fs1, req⟩ := p
      simp [sendFileLoop, hs, ih]

theorem sendFile_attempted (env : Env) (opts : SendOptions) (fileDoc : FileDoc)
    (rs : List RecipientInfo) (docRev : String) (fs0 : FileState)
    (h : fs0.fileOptsSet = true ∨ env.openOk = true) :
    (sendFile env opts fileDoc rs docRev fs0).attempted = rs.map RecipientInfo.url := by
  obtain ⟨fs1, hfill, _⟩ := fillDetails_ok env opts fileDoc fs0 h
  simp [sendFile, hfill, sendFileLoop_attempted]

theorem upfStep_attempted (env : Env) (opts : SendOptions) (fileDoc : FileDoc)
    (all : List RecipientInfo) (r : RecipientInfo) (st : UPFState) :
    (upfStep env opts fileDoc all r st).attempted = st.attempted ++ [r.url] := by
  cases hfr : env.fetchFile r <;>
    simp only [upfStep, hfr] <;>
    (repeat' split) <;> rfl

theorem upfLoop_attempted (env : Env) (opts : SendOptions) (fileDoc : FileDoc)
    (all : List RecipientInfo) :
    ∀ (rs : List RecipientInfo) (st : UPFState),
      (updateOrPatchFileLoop env opts fileDoc all rs st).attempted =
        st.attempted ++ rs.map RecipientInfo.url := by
  intro rs
  induction rs with
  | nil => intro st; simp [updateOrPatchFileLoop]
  | cons r rest ih =>
    intro st
    rw [upfLoop_cons, ih, upfStep_attempted]
    simp

theorem deleteDirOrFileLoop_attempted (env : Env) :
    ∀ rs : List RecipientInfo,
      (deleteDirOrFileLoop env rs).2.2 = rs.map RecipientInfo.url := by
  intro rs
  induction rs with
  | nil => rfl
  | cons r rest ih =>
    rcases hre : deleteDirOrFileLoop env rest with ⟨reqs, errs, att⟩
    cases hg : getDirOrFileRevAtRecipient env r with
    | error e =>
      simp only [deleteDirOrFileLoop, hre, hg]
      rw [hre] at ih
      simpa using ih
    | ok rev =>
      simp only [deleteDirOrFileLoop, hre, hg]
      rw [hre] at ih
      simpa using ih

theorem updateDocLoop_ok_attempted (env : Env) :
    ∀ (rs : List RecipientInfo) (doc : JMap),
      (assertString doc "_id").isSome → (assertString doc "_rev").isSome →
      (∀ r ∈ rs, ∀ d, env.fetchDoc r = DocFetch.found d →
        (assertString d "_rev").isSome) →
      ∃ res, updateDocLoop env rs doc = Except.ok res ∧
        res.attempted = rs.map RecipientInfo.url := by
  intro rs
  induction rs with
  | nil =>
    intro doc _ _ _
    exact ⟨{ reqs := [], errs := [], attempted := [] }, rfl, rfl⟩
  | cons r rest ih =>
    intro doc hid hrev hwf
    have hwf2 : ∀ x ∈ rest, ∀ d, env.fetchDoc x = DocFetch.found d →
        (assertString d "_rev").isSome :=
      fun x hx => hwf x (List.mem_cons_of_mem r hx)
    cases hfr : env.fetchDoc r with
    | found d0 =>
      have hd0 : (assertString d0 "_rev").isSome :=
        hwf r (List.mem_cons_self r rest) d0 hfr
      have hch := docHasChanges_eq_some doc d0 hid hrev hd0
      cases hb : jEqB (stripVolatile doc) (stripVolatile d0) with
      | true =>
        obtain ⟨res, hres, hatt⟩ := ih doc hid hrev hwf2
        refine ⟨{ res with attempted := r.url :: res.attempted }, ?_, ?_⟩
        · simp [updateDocLoop, hfr, hch, hb, hres]
        · simp [hatt]
      | false =>
        obtain ⟨rev0, hrev0⟩ := Option.isSome_iff_exists.mp hd0
        have hid1 : (assertString (jSetRev doc rev0) "_id").isSome := by
          rw [assertString_jSetRev_id]; exact hid
        have hrev1 : (assertString (jSetRev doc rev0) "_rev").isSome := by
          rw [assertString_jSetRev_rev]; rfl
        obtain ⟨res, hres, hatt⟩ := ih (jSetRev doc rev0) hid1 hrev1 hwf2
        refine ⟨{ reqs := SentReq.docPut r.url (jSetRev doc rev0) :: res.reqs,
                  errs := (if env.sendOk r then [] else ["send failed: " ++ r.url])
                            ++ res.errs,
                  attempted := r.url :: res.attempted }, ?_, ?_⟩
        · simp [updateDocLoop, hfr, hch, hb, hrev0, hres]
        · simp [hatt]
    | notFound =>
      obtain ⟨res, hres, hatt⟩ := ih doc hid hrev hwf2
      refine ⟨{ res with
                  errs := ("get remote doc failed: " ++ r.url) :: res.errs,
                  attempted := r.url :: res.attempted }, ?_, ?_⟩
      · simp [updateDocLoop, hfr, hres]
      · simp [hatt]
    | fetchError =>
      obtain ⟨res, hres, hatt⟩ := ih doc hid hrev hwf2
      refine ⟨{ res with
                  errs := ("get remote doc failed: " ++ r.url) :: res.errs,
                  attempted := r.url :: res.attempted }, ?_, ?_⟩
      · simp [updateDocLoop, hfr, hres]
      · simp [hatt]

theorem deleteDocLoop_ok_attempted (env : Env) :
    ∀ rs : List RecipientInfo,
      (∀ r ∈ rs, ∀ d, env.fetchDoc r = DocFetch.found d →
        (assertString d "_rev").isSome) →
      ∃ res, deleteDocLoop env rs = Except.ok res ∧
        res.attempted = rs.map RecipientInfo.url := by
  intro rs
  induction rs with
  | nil =>
    intro _
    exact ⟨{ reqs := [], errs := [], attempted := [] }, rfl, rfl⟩
  | cons r rest ih =>
    intro hwf
    have hwf2 : ∀ x ∈ rest, ∀ d, env.fetchDoc x = DocFetch.found d →
        (assertString d "_rev").isSome :=
      fun x hx => hwf x (List.mem_cons_of_mem r hx)
    obtain ⟨res, hres, hatt⟩ := ih hwf2
    cases hfr : env.fetchDoc r with
    | found d0 =>
      have hd0 : (assertString d0 "_rev").isSome :=
        hwf r (List.mem_cons_self r rest) d0 hfr
      obtain ⟨rev0, hrev0⟩ := Option.isSome_iff_exists.mp hd0
      refine ⟨{ reqs := SentReq.docDelete r.url rev0 :: res.reqs,
                errs := (if env.sendOk r then [] else ["share data failed: " ++ r.url])
                          ++ res.errs,
                attempted := r.url :: res.attempted }, ?_, ?_⟩
      · simp [deleteDocLoop, hfr, hrev0, hres]
      · simp [hatt]
    | notFound =>
      refine ⟨{ res with
                  errs := ("get remote doc failed: " ++ r.url) :: res.errs,
                  attempted := r.url :: res.attempted }, ?_, ?_⟩
      · simp [deleteDocLoop, hfr, hres]
      · simp [hatt]
    | fetchError =>
      refine ⟨{ res with
                  errs := ("get remote doc failed: " ++ r.url) :: res.errs,
                  attempted := r.url :: res.attempted }, ?_, ?_⟩
      · simp [deleteDocLoop, hfr, hres]
      · simp [hatt]

theorem patchDirLoop_all_found (env : Env) (opts : SendOptions) (dirDoc : DirDoc) :
    ∀ rs : List RecipientInfo,
      (∀ r ∈ rs, ∃ d, env.fetchFile r = FileFetch.found d) →
      (patchDirLoop env opts dirDoc rs).attempted = rs.map RecipientInfo.url ∧
      (patchDirLoop env opts dirDoc rs).aborted = none := by
  intro rs
  induction rs with
  | nil => intro _; exact ⟨rfl, rfl⟩
  | cons r rest ih =>
    intro h
    obtain ⟨d, hd⟩ := h r (List.mem_cons_self r rest)
    have hg : getDirOrFileRevAtRecipient env r = Except.ok d.rev := by
      simp [getDirOrFileRevAtRecipient, hd]
    obtain ⟨h1, h2⟩ := ih (fun x hx => h x (List.mem_cons_of_mem r hx))
    exact ⟨by simp [patchDirLoop, hg, h1], by simp [patchDirLoop, hg, h2]⟩

/-- C5 (amended): every public fan-out operation attempts each recipient
regardless of earlier recipients' failures — with one exception forced by
the code: `PatchDir` returns immediately when a recipient's remote-revision
fetch fails, so later recipients are attempted only while revision fetches
keep succeeding (the well-formedness hypotheses on the generic-doc loops
keep claim C10's panics out of the way). -/
theorem c5_partial_failure_fanout :
    (∀ (env : Env) (body : JMap) (rs : List RecipientInfo),
        (sendDocLoop env body rs).attempted = rs.map RecipientInfo.url) ∧
    (∀ (env : Env) (opts : SendOptions) (fileDoc : FileDoc)
        (rs : List RecipientInfo) (docRev : String) (fs0 : FileState),
        fs0.fileOptsSet = true ∨ env.openOk = true →
        (sendFile env opts fileDoc rs docRev fs0).attempted =
          rs.map RecipientInfo.url) ∧
    (∀ (env : Env) (parentID : String) (dirDoc : DirDoc) (rs : List RecipientInfo),
        (sendDirLoop env parentID dirDoc rs).attempted = rs.map RecipientInfo.url) ∧
    (∀ (env : Env) (opts : SendOptions) (fileDoc : FileDoc) (rs : List RecipientInfo),
        (updateOrPatchFile env opts fileDoc rs).attempted = rs.map RecipientInfo.url) ∧
    (∀ (env : Env) (doc : JMap) (rs : List RecipientInfo),
        (assertString doc "_id").isSome → (assertString doc "_rev").isSome →
        (∀ r ∈ rs, ∀ d, env.fetchDoc r = DocFetch.found d →
          (assertString d "_rev").isSome) →
        ∃ res, updateDocLoop env rs doc = Except.ok res ∧
          res.attempted = rs.map RecipientInfo.url) ∧
    (∀ (env : Env) (rs : List RecipientInfo),
        (∀ r ∈ rs, ∀ d, env.fetchDoc r = DocFetch.found d →
          (assertString d "_rev").isSome) →
        ∃ res, deleteDocLoop env rs = Except.ok res ∧
          res.attempted = rs.map RecipientInfo.url) ∧
    (∀ (env : Env) (rs : List RecipientInfo),
        (deleteDirOrFile env rs).attempted = rs.map RecipientInfo.url) ∧
    (∀ (env : Env) (opts : SendOptions) (rs : List RecipientInfo),
        (removeDirOrFileFromSharing env opts rs).attempted =
          rs.map RecipientInfo.url) ∧
    (∀ (env : Env) (opts : SendOptions) (dirDoc : DirDoc) (rs : List RecipientInfo),
        (∀ r ∈ rs, ∃ d, env.fetchFile r = FileFetch.found d) →
        (patchDir env opts dirDoc rs).attempted = rs.map RecipientInfo.url ∧
        (patchDir env opts dirDoc rs).aborted = none) := by
  refine ⟨sendDocLoop_attempted, sendFile_attempted, sendDirLoop_attempted,
          ?_, fun env doc rs => updateDocLoop_ok_attempted env rs doc,
          deleteDocLoop_ok_attempted, ?_, removeDirOrFileFromSharing_attempted,
          fun env opts dirDoc rs => patchDirLoop_all_found env opts dirDoc rs⟩
  · intro env opts fileDoc rs
    show (updateOrPatchFileLoop env opts fileDoc rs rs initUPFState).attempted =
      rs.map RecipientInfo.url
    rw [upfLoop_attempted]
    rfl
  · intro env rs
    show (deleteDirOrFileLoop env rs).2.2 = rs.map RecipientInfo.url
    exact deleteDirOrFileLoop_attempted env rs

/-- C5 witness: recipient `a`'s snapshot fetch fails, yet recipient `b` is
still attempted by the generic update loop. -/
theorem c5_witness :
    ∃ res, updateDocLoop envFetchFailA [recA, recB] docLocal = Except.ok res ∧
      res.attempted = ["a", "b"] := by
  have h := c5_partial_failure_fanout.2.2.2.2.1 envFetchFailA docLocal [recA, recB]
    rfl rfl ?hwf
  case hwf =>
    intro r hr d hd
    by_cases hu : r.url = "a"
    · simp [envFetchFailA, hu] at hd
    · simp [envFetchFailA, hu] at hd
      rw [← hd]
      rfl
  simpa using h

/-- C5 counterexample: in `PatchDir` a failed revision fetch for recipient
`a` aborts the loop: recipient `b` is never attempted, no patch is sent, and
the error is returned alone instead of being aggregated. -/
theorem c5_counterexample :
    (patchDir envFetchFailA optsC8 dirBase [recA, recB]).attempted = ["a"] ∧
    (patchDir envFetchFailA optsC8 dirBase [recA, recB]).aborted =
      some "fetch failed" ∧
    (patchDir envFetchFailA optsC8 dirBase [recA, recB]).reqs = [] :=
  ⟨rfl, rfl, rfl⟩

/-- C9: `DeleteDirOrFile` fetches each reachable recipient's revision and
attaches it to the delete, records the failed recipient's error in the
aggregate and keeps going — but share_data.go:584 ends with `return nil`, so
the recorded aggregate is dropped and the caller always sees success.  By
contrast `DeleteDoc` does return its aggregate. -/
theorem c9_delete_returns_nil :
    (deleteDirOrFile envFetchFailA [recA, recB]).errs ≠ [] ∧
    (deleteDirOrFile envFetchFailA [recA, recB]).reqs =
      [SentReq.fileDelete recB.url remoteSame.rev] ∧
    (deleteDirOrFile envFetchFailA [recA, recB]).attempted = ["a", "b"] ∧
    (deleteDirOrFile envFetchFailA [recA, recB]).returned = none ∧
    deleteDoc envFetchFailA [recA] =
      Except.ok ({ reqs := [], errs := ["get remote doc failed: a"],
                   attempted := ["a"] },
                 some ["get remote doc failed: a"]) := by
  refine ⟨?_, rfl, rfl, rfl, rfl⟩
  decide

end ShareData
